import Mathlib

/-!
# czrpc: the RPC table and its dispatchers

A shallow embedding of `source/crazygaze/rpc/RPCTable.h` and of `parseCommandParameters` in
`samples/ServerConsole/ServerConsoleCommand.cpp`.

* Machine integers are natural numbers; a store into a bit-field of width `w` is
  written `% 2 ^ w`.
* `Stream` is the list of bytes between the read position and the write position.
* The `DebugInfo*` argument of the dispatchers only feeds `CZRPC_LOG`; logging has no
  effect on the table, the connection state or the transport, so it is left out.
* A dispatcher closure (`Info::dispatcher`) is represented by the data it captures
  (`DispatcherFn`); `TableImpl.dispatcher` runs the body of the corresponding lambda.
-/

namespace cz.rpc

/-! ## Header -/

/-- The bit-fields of `Header::Bits`, in declaration order. -/
structure Header where
  size : Nat := 0
  counter : Nat := 0
  rpcid : Nat := 0
  hasDbg : Nat := 0
  isReply : Nat := 0
  success : Nat := 0
  deriving DecidableEq, Repr

namespace Header

def kSizeBits : Nat := 32

def kRPCIdBits : Nat := 7

def kCounterBits : Nat := 22

/-- Every field fits the width of its bit-field. -/
def InRange (h : Header) : Prop :=
  h.size < 2 ^ kSizeBits ∧ h.counter < 2 ^ kCounterBits ∧ h.rpcid < 2 ^ kRPCIdBits ∧
    h.hasDbg < 2 ∧ h.isReply < 2 ∧ h.success < 2

instance (h : Header) : Decidable h.InRange := by
  unfold InRange; infer_instance

/-- `Header::key`: `(bits.counter << kRPCIdBits) | bits.rpcid` as a `uint32_t`. -/
def key (h : Header) : Nat := ((h.counter <<< kRPCIdBits) ||| h.rpcid) % 2 ^ 32

/-- `Header::isGenericRPC`. -/
def isGenericRPC (h : Header) : Bool := h.rpcid == 0

/-- The member `all_` of the union: the 64-bit word overlaying `bits`. Bit-fields are
allocated from the least significant bit in declaration order (`size` in bits 0..31,
`counter` in 32..53, `rpcid` in 54..60, then the three flags), which is the layout under
which the `static_assert` on the size of `Header` holds. This is what `operator<<` writes. -/
def all_ (h : Header) : Nat :=
  h.size + h.counter * 2 ^ 32 + h.rpcid * 2 ^ 54 + h.hasDbg * 2 ^ 61 + h.isReply * 2 ^ 62 +
    h.success * 2 ^ 63

/-- Reading `bits` after `operator>>` stored a 64-bit word into `all_`. -/
def ofAll (w : Nat) : Header where
  size := w % 2 ^ 32
  counter := w / 2 ^ 32 % 2 ^ 22
  rpcid := w / 2 ^ 54 % 2 ^ 7
  hasDbg := w / 2 ^ 61 % 2
  isReply := w / 2 ^ 62 % 2
  success := w / 2 ^ 63 % 2

end Header

/-! ## Stream -/

/-- Modelled from the spec: the byte buffer `Stream` (its class is not part of this
header). A stream is the list of its bytes; reading removes bytes from the front, writing
appends at the back. -/
abbrev Stream := List Nat

/-- `Stream::writeSize`: the number of bytes written. -/
def writeSize (s : Stream) : Nat := s.length

/-- The `n` low-order bytes of `v`, least significant first. -/
def leBytes : Nat → Nat → List Nat
  | 0, _ => []
  | n + 1, v => v % 256 :: leBytes n (v / 256)

/-- The value of a little-endian byte sequence. -/
def leValue : List Nat → Nat
  | [] => 0
  | b :: bs => b % 256 + 256 * leValue bs

/-- `operator<<(Stream&, const Header&)`: writes `all_` as eight bytes. -/
def writeHeader (s : Stream) (v : Header) : Stream := s ++ leBytes 8 v.all_

/-- `operator>>(Stream&, Header&)`: reads eight bytes into `all_`. -/
def readHeader (s : Stream) : Option (Header × Stream) :=
  if s.length < 8 then none else some (Header.ofAll (leValue (s.take 8)), s.drop 8)

/-- Modelled from the spec: a text is written as a "length-prefixed string": a four-byte
length followed by the bytes of the text. A `std::string` or C string is a sequence of
bytes; the embedding writes the byte `b` as the character with code `b`. -/
def writeString (s : Stream) (v : String) : Stream :=
  s ++ leBytes 4 v.length ++ v.data.map fun c => c.toNat % 256

/-- Modelled from the spec: reading a length-prefixed string. Fails when the stream holds
fewer bytes than the prefix announces. -/
def readString (s : Stream) : Option (String × Stream) :=
  if s.length < 4 then none
  else
    let len := leValue (s.take 4)
    let rest := s.drop 4
    if rest.length < len then none
    else some (String.mk ((rest.take len).map Char.ofNat), rest.drop len)

/-- The store `*reinterpret_cast<Header*>(o.ptr(0)) = hdr`: overwrites the first eight
bytes of the stream. -/
def patchHeader (o : Stream) (hdr : Header) : Stream := leBytes 8 hdr.all_ ++ o.drop 8

/-! ## Transport -/

/-- Modelled from the spec: the transport collaborator with `send(bytes)` and `close()`.
The state records every buffer handed to `send`, in order, and whether `close` was called. -/
structure Transport where
  sent : List Stream := []
  closed : Bool := false
  deriving DecidableEq, Repr

def Transport.send (trp : Transport) (bytes : Stream) : Transport :=
  { trp with sent := trp.sent ++ [bytes] }

def Transport.close (trp : Transport) : Transport :=
  { trp with closed := true }

/-! ## Send -/

namespace Send

/-- `details::Send::error`. -/
def error (trp : Transport) (hdr : Header) (what : String) : Transport :=
  let o : Stream := writeHeader [] hdr
  let o := writeString o what
  let hdr := { hdr with hasDbg := 0 }
  let hdr := { hdr with isReply := 1 }
  let hdr := { hdr with success := 0 }
  let hdr := { hdr with size := writeSize o % 2 ^ Header.kSizeBits }
  let o := patchHeader o hdr
  trp.send o

/-- `details::Send::result`. -/
def result (trp : Transport) (hdr : Header) (o : Stream) : Transport :=
  let hdr := { hdr with hasDbg := 0 }
  let hdr := { hdr with isReply := 1 }
  let hdr := { hdr with success := 1 }
  let hdr := { hdr with size := writeSize o % 2 ^ Header.kSizeBits }
  let o := patchHeader o hdr
  trp.send o

end Send

/-! ## Collaborators -/

/-- Modelled from the spec: the dynamically-typed value `Any` ("constructible from and
convertible to the supported primitive and binary-blob kinds"); its class is not part of
this header. Floating-point values are left out. -/
inductive Any where
  | none
  | bool (b : Bool)
  | integer (i : Int)
  | unsignedInteger (u : Nat)
  | string (s : String)
  | blob (bytes : List Nat)
  deriving DecidableEq, Repr

/-- What this header uses and does not define, taken as parameters: the build switch
`CZRPC_CATCH_EXCEPTIONS`, the wire format of `Any` and of `std::vector<Any>`, and the
operations of `ObjectData` (whose state has type `OD`). -/
structure Collaborators (OD : Type) where
  catchExceptions : Bool
  writeAny : Any → Stream
  readAnys : Stream → Option (List Any × Stream)
  checkAuthToken : OD → String → Bool
  getProperty : OD → String → Any
  setProperty : OD → String → Any → Bool → Bool × OD

/-! ## InProcessorData -/

/-- The `std::future<void>` returned by `then(...)` in `Dispatcher<true, R>::impl`,
identified by what its continuation captured: the pending counter and the request header. -/
structure PendingFuture where
  counter : Nat
  hdr : Header
  deriving DecidableEq, Repr

/-- `InProcessorData::PendingFutures`. The `unordered_map` is an association list with at
most one entry per key. -/
structure PendingFutures where
  counter : Nat := 0
  futures : List (Nat × PendingFuture) := []
  done : List PendingFuture := []
  deriving DecidableEq, Repr

/-- `std::unordered_map::insert`: adds the pair unless the key is already present. -/
def PendingFutures.insert (m : List (Nat × PendingFuture)) (k : Nat) (v : PendingFuture) :
    List (Nat × PendingFuture) :=
  if m.any (fun e => e.1 == k) then m else m ++ [(k, v)]

/-- `InProcessorData`: the per-connection dispatch state. -/
structure InProcessorData (OD : Type) where
  pending : PendingFutures := {}
  objData : OD
  authPassed : Bool := false

namespace InProcessorData

variable {OD : Type}

/-- `InProcessorData::getProperty`. -/
def getProperty (env : Collaborators OD) (d : InProcessorData OD) (name : String) :
    Any × InProcessorData OD :=
  (env.getProperty d.objData name, d)

/-- `InProcessorData::setProperty`. -/
def setProperty (env : Collaborators OD) (d : InProcessorData OD) (name : String) (val : Any) :
    Any × InProcessorData OD :=
  let r := env.setProperty d.objData name val true
  (Any.bool r.1, { d with objData := r.2 })

/-- `InProcessorData::auth`. -/
def auth (env : Collaborators OD) (d : InProcessorData OD) (token : String) :
    Any × InProcessorData OD :=
  let d := { d with authPassed := env.checkAuthToken d.objData token }
  (Any.bool d.authPassed, d)

end InProcessorData

/-- The member functions of `InProcessorData` that `registerControlRPC` is given. -/
inductive ControlFn where
  | auth
  | getProperty
  | setProperty
  deriving DecidableEq, Repr

/-- `FunctionTraits<F>::param_tuple` of a control function. -/
def ControlFn.P : ControlFn → Type
  | .auth => String
  | .getProperty => String
  | .setProperty => String × Any

/-- Modelled from the spec: `toTuple` for a control function ("a sequence of
dynamically-typed values that must be converted to the procedure's strongly-typed parameter
tuple"): it succeeds when the list holds one value per parameter, each of the parameter's
kind. -/
def ControlFn.toTuple : (f : ControlFn) → List Any → Option f.P
  | .auth, [Any.string token] => some token
  | .getProperty, [Any.string name] => some name
  | .setProperty, [Any.string name, val] => some (name, val)
  | _, _ => none

/-- `callMethod(out, f, params)` for a control function. -/
def ControlFn.callMethod {OD : Type} (env : Collaborators OD) :
    (f : ControlFn) → InProcessorData OD → f.P → Any × InProcessorData OD
  | .auth, d, token => d.auth env token
  | .getProperty, d, name => d.getProperty env name
  | .setProperty, d, p => d.setProperty env p.1 p.2

/-- A user procedure `F` of the target type `Obj`, with what `FunctionTraits<F>`, `toTuple`,
`callMethod` and the stream operators of its types provide. `R` is the return type, or the
value type of the returned future when `isasync`. `callMethod` gives the object after the
call and either the returned value or the text `what()` of the exception thrown; for an
asynchronous procedure the value stands for the returned future and is not inspected. -/
structure Proc (Obj : Type) where
  P : Type
  R : Type
  isasync : Bool
  isVoid : Bool
  toTuple : List Any → Option P
  readParams : Stream → Option (P × Stream)
  callMethod : Obj → P → Obj × Except String R
  writeR : R → Stream
  toAny : R → Any

/-- Everything a dispatcher reads or changes: the target object, the stream `in`, the
connection state `out` and the transport `trp`. -/
structure World (Obj OD : Type) where
  obj : Obj
  inp : Stream
  out : InProcessorData OD
  trp : Transport

/-- How a dispatcher can end without returning. -/
inductive Failure where
  | assertion
  | streamUnderflow
  | invalidProcedureId
  | exception (what : String)
  | nesting
  deriving DecidableEq, Repr

abbrev Result (Obj OD : Type) := Except Failure (World Obj OD)

section Dispatch

variable {Obj OD : Type}

/-- `details::Caller<R>::doCall` and `details::Caller<void>::doCall` (when `isVoid`). -/
def Caller.doCall (env : Collaborators OD) (f : Proc Obj) (obj : Obj) (params : f.P)
    (out : Stream) (hdr : Header) : Obj × Except String Stream :=
  match f.callMethod obj params with
  | (obj, .error what) => (obj, .error what)
  | (obj, .ok r) =>
    if f.isVoid then
      if hdr.isGenericRPC then (obj, .ok (out ++ env.writeAny Any.none)) else (obj, .ok out)
    else if hdr.isGenericRPC then (obj, .ok (out ++ env.writeAny (f.toAny r)))
    else (obj, .ok (out ++ f.writeR r))

/-- `details::Dispatcher<false, R>::impl`. -/
def Dispatcher.implSync (env : Collaborators OD) (f : Proc Obj) (params : f.P)
    (w : World Obj OD) (hdr : Header) : Result Obj OD :=
  let o : Stream := writeHeader [] hdr
  match Caller.doCall env f w.obj params o hdr with
  | (obj, .ok o) => .ok { w with obj := obj, trp := Send.result w.trp hdr o }
  | (obj, .error what) =>
    if env.catchExceptions then .ok { w with obj := obj, trp := Send.error w.trp hdr what }
    else .error (.exception what)

/-- `details::Dispatcher<true, R>::impl`. -/
def Dispatcher.implAsync (f : Proc Obj) (params : f.P) (w : World Obj OD) (hdr : Header) :
    Result Obj OD :=
  match f.callMethod w.obj params with
  | (_, .error what) => .error (.exception what)
  | (obj, .ok _) =>
    let pending := w.out.pending
    let counter := pending.counter
    let pending := { pending with counter := (pending.counter + 1) % 2 ^ 32 }
    let ft : PendingFuture := { counter := counter, hdr := hdr }
    let pending := { pending with futures := PendingFutures.insert pending.futures counter ft }
    .ok { w with obj := obj, out := { w.out with pending := pending } }

/-- `details::Dispatcher<Traits::isasync, R>::impl`. -/
def Dispatcher.impl (env : Collaborators OD) (f : Proc Obj) (params : f.P) (w : World Obj OD)
    (hdr : Header) : Result Obj OD :=
  if f.isasync then Dispatcher.implAsync f params w hdr
  else Dispatcher.implSync env f params w hdr

/-- The lambda that `Dispatcher<true, R>::processReady` runs on the monitor `out.pending`:
`done.clear()`, then, when `futures.find(counter)` finds an entry, `done.push_back` of its
future and `futures.erase(it)`. An `unordered_map` holds one entry per key, so erasing the
entry found removes the entries of that key. -/
def PendingFutures.retire (pending : PendingFutures) (counter : Nat) : PendingFutures :=
  let pending := { pending with done := [] }
  match pending.futures.find? (fun e => e.1 == counter) with
  | none => pending
  | some it =>
    { pending with done := pending.done ++ [it.2],
                   futures := pending.futures.filter (fun e => e.1 != counter) }

/-- `details::Dispatcher<true, R>::processReady`, the continuation of an asynchronous call;
`ft` is what `ft.get()` yields: the value of the future or the text of the exception it
rethrows. -/
def Dispatcher.processReady (env : Collaborators OD) (f : Proc Obj) (w : World Obj OD)
    (counter : Nat) (hdr : Header) (ft : Except String f.R) : World Obj OD :=
  let trp :=
    match ft with
    | .ok r =>
      let o : Stream := writeHeader [] hdr
      let o := if hdr.isGenericRPC then o ++ env.writeAny (f.toAny r) else o ++ f.writeR r
      Send.result w.trp hdr o
    | .error what => Send.error w.trp hdr what
  { w with trp := trp, out := { w.out with pending := w.out.pending.retire counter } }

/-- The completion of one asynchronous call: the procedure called and what its future
yields. -/
structure Completion (Obj : Type) : Type 1 where
  f : Proc Obj
  ft : Except String f.R

/-- Destroying the futures of `tmp` in `~InProcessorData`: each destructor blocks until the
continuation of its future has run, that is, until `processReady` has run with the counter and
header the continuation captured; `completion` says how each call completes. -/
def InProcessorData.drain (env : Collaborators OD) (completion : PendingFuture → Completion Obj) :
    List (Nat × PendingFuture) → World Obj OD → World Obj OD
  | [], w => w
  | e :: tmp, w =>
    InProcessorData.drain env completion tmp
      (Dispatcher.processReady env (completion e.2).f w e.2.counter e.2.hdr (completion e.2).ft)

/-- `InProcessorData::~InProcessorData`: swaps the pending map out, destroys the futures
swapped out, clears `done`, and asserts that the pending map is empty. -/
def InProcessorData.destroy (env : Collaborators OD) (completion : PendingFuture → Completion Obj)
    (w : World Obj OD) : Result Obj OD :=
  let tmp := w.out.pending.futures
  let w := { w with out := { w.out with pending := { w.out.pending with futures := [] } } }
  let w := InProcessorData.drain env completion tmp w
  let w := { w with out := { w.out with pending := { w.out.pending with done := [] } } }
  if w.out.pending.futures.length == 0 then .ok w else .error .assertion

end Dispatch

/-! ## The table -/

/-- What the closure stored in `Info::dispatcher` was built from: the lambda of
`registerGenericRPC`, the lambda of `registerRPC` with the captured `f`, or the lambda of
`registerControlRPC` with the captured `f`. -/
inductive DispatcherFn (Obj : Type) : Type 1 where
  | generic
  | rpc (f : Proc Obj)
  | control (f : ControlFn)

/-- `TableImpl<T>::Info` (with the `name` of `BaseInfo`). -/
structure Info (Obj : Type) : Type 1 where
  name : String
  dispatcher : DispatcherFn Obj

/-- `TableImpl<T>` with the members of `BaseTable`. -/
structure TableImpl (Obj : Type) : Type 1 where
  m_name : String
  m_rpcs : List (Info Obj) := []
  m_controlrpcs : List (Info Obj) := []

namespace TableImpl

variable {Obj OD : Type}

/-- `BaseTable::isValid`. -/
def isValid (t : TableImpl Obj) (rpcid : Nat) : Bool := decide (rpcid < t.m_rpcs.length)

/-- `TableImpl::getByName`: the first ordinary entry with that name. -/
def getByName (t : TableImpl Obj) (name : String) : Option (Info Obj) :=
  t.m_rpcs.find? fun info => info.name == name

/-- `TableImpl::getControlByName`: the first control entry with that name. -/
def getControlByName (t : TableImpl Obj) (name : String) : Option (Info Obj) :=
  t.m_controlrpcs.find? fun info => info.name == name

/-- The lookup in the lambda of `registerGenericRPC`:
`Info* info = getByName(name); if (!info) info = getControlByName(name);`. -/
def lookup (t : TableImpl Obj) (name : String) : Option (Info Obj) :=
  match t.getByName name with
  | some info => some info
  | none => t.getControlByName name

/-- The dispatcher lambda of `registerRPC`, for the captured `f`. -/
def rpcDispatcher (env : Collaborators OD) (f : Proc Obj) (hdr : Header) (w : World Obj OD) :
    Result Obj OD :=
  if !w.out.authPassed then .ok { w with trp := w.trp.close }
  else if hdr.isGenericRPC then
    match env.readAnys w.inp with
    | none => .error .streamUnderflow
    | some (a, inp) =>
      match f.toTuple a with
      | none =>
        .ok { w with inp := inp,
                     trp := Send.error w.trp hdr "Invalid parameters for generic RPC" }
      | some params => Dispatcher.impl env f params { w with inp := inp } hdr
  else
    match f.readParams w.inp with
    | none => .error .streamUnderflow
    | some (params, inp) => Dispatcher.impl env f params { w with inp := inp } hdr

/-- The dispatcher lambda of `registerControlRPC`, for the captured `f` and the `name` of
its own entry. -/
def controlDispatcher (env : Collaborators OD) (name : String) (f : ControlFn) (hdr : Header)
    (w : World Obj OD) : Result Obj OD :=
  if !hdr.isGenericRPC then .error .assertion
  else if !w.out.authPassed && name != "__auth" then .ok { w with trp := w.trp.close }
  else
    match env.readAnys w.inp with
    | none => .error .streamUnderflow
    | some (a, inp) =>
      match f.toTuple a with
      | none =>
        .ok { w with inp := inp,
                     trp := Send.error w.trp hdr "Invalid parameters for generic RPC" }
      | some params =>
        let o : Stream := writeHeader [] hdr
        let r := f.callMethod env w.out params
        let o := o ++ env.writeAny r.1
        .ok { w with inp := inp, out := r.2, trp := Send.result w.trp hdr o }

/-- Running `info->dispatcher(obj, in, out, trp, hdr, dbg)` for an entry of the table. The
lambda of `registerGenericRPC` reads a name, looks it up among the ordinary and then the
control entries and runs the dispatcher found, which may again be the generic one; `depth`
bounds that nesting. Every level reads a name from the stream, so the number of bytes of the
stream is a sufficient bound (see `processCall`). -/
def dispatcher (env : Collaborators OD) (t : TableImpl Obj) :
    Nat → Info Obj → Header → World Obj OD → Result Obj OD
  | depth, info, hdr, w =>
    match info.dispatcher with
    | .rpc f => rpcDispatcher env f hdr w
    | .control f => controlDispatcher env info.name f hdr w
    | .generic =>
      if !hdr.isGenericRPC then .error .assertion
      else
        match readString w.inp with
        | none => .error .streamUnderflow
        | some (name, inp) =>
          match t.lookup name with
          | none => .ok { w with inp := inp, trp := Send.error w.trp hdr "Generic RPC not found" }
          | some target =>
            match depth with
            | 0 => .error .nesting
            | depth + 1 => dispatcher env t depth target hdr { w with inp := inp }

/-- Modelled from the spec: the entry point that hands an inbound call to the table (it
lives in the processor, outside this header): "resolve the ordinary procedure by id directly
(id must be < table size, else InvalidProcedureId)"; id 0 is the generic entry. -/
def processCall (env : Collaborators OD) (t : TableImpl Obj) (hdr : Header)
    (w : World Obj OD) : Result Obj OD :=
  if t.isValid hdr.rpcid then
    match t.m_rpcs.get? hdr.rpcid with
    | some info => t.dispatcher env (w.inp.length + 1) info hdr w
    | none => .error .invalidProcedureId
  else .error .invalidProcedureId

/-- The outcome of a registration: the new table, or, when an `assert` fails, the table as
it was at that moment. -/
abbrev Registration (Obj : Type) := Except (TableImpl Obj) (TableImpl Obj)

/-- `TableImpl::registerControlRPC`. -/
def registerControlRPC (t : TableImpl Obj) (name : String) (f : ControlFn) :
    Registration Obj :=
  if (t.getByName name).isSome then .error t
  else if (t.getControlByName name).isSome then .error t
  else .ok { t with m_controlrpcs := t.m_controlrpcs ++ [Info.mk name (.control f)] }

/-- `TableImpl::registerRPC`. -/
def registerRPC (t : TableImpl Obj) (rpcid : Nat) (name : String) (f : Proc Obj) :
    Registration Obj :=
  if rpcid ≠ t.m_rpcs.length then .error t
  else if (t.getByName name).isSome then .error t
  else if (t.getControlByName name).isSome then .error t
  else .ok { t with m_rpcs := t.m_rpcs ++ [Info.mk name (.rpc f)] }

/-- `TableImpl::registerGenericRPC`. -/
def registerGenericRPC (t : TableImpl Obj) : Registration Obj :=
  if t.m_rpcs.length ≠ 0 then .error t
  else
    let t := { t with m_rpcs := t.m_rpcs ++ [Info.mk "genericRPC" .generic] }
    (t.registerControlRPC "__auth" .auth).bind fun t =>
      (t.registerControlRPC "__getProperty" .getProperty).bind fun t =>
        t.registerControlRPC "__setProperty" .setProperty

end TableImpl

/-! ## The console command line (`samples/ServerConsole/ServerConsoleCommand.cpp`) -/

namespace ServerConsole

/-- `GenericCommand` (declared in `ServerConsoleCommand.h`): the connection name, the command
and the parameters; a default-constructed one is the empty command. -/
structure GenericCommand where
  conName : String := ""
  cmd : String := ""
  params : List Any := []
  deriving DecidableEq, Repr

/-- What the parser uses from outside: `sstoken >> f` for a `float` followed by `Any(f)`, as a
function of the unread characters, and the contents of the file of a given name (`none` when
`is_open()` is false). -/
structure Environment where
  readFloat : List Char → Option Any
  readFile : String → Option (List Nat)

/-- `std::isspace` in the "C" locale. -/
def isspace (c : Char) : Bool :=
  c == ' ' || c == '\t' || c == '\n' || c == Char.ofNat 11 || c == Char.ofNat 12 || c == '\r'

/-- Modelled from its use: `cz::trim` (not part of this file) removes the whitespace at both
ends of a string. -/
def trim (s : List Char) : List Char :=
  ((s.dropWhile isspace).reverse.dropWhile isspace).reverse

/-- The C string `s.c_str()` denotes: the characters before the first NUL. -/
def c_str (s : List Char) : List Char := s.takeWhile fun c => c != Char.ofNat 0

/-- A `std::stringstream` that is read: the unread characters, `eofbit` and `failbit`. -/
structure IStream where
  buf : List Char
  eof : Bool := false
  fail : Bool := false
  deriving DecidableEq, Repr

namespace IStream

/-- `good()`. -/
def good (s : IStream) : Bool := !s.eof && !s.fail

/-- `peek()`: the next character, or `none` for `EOF`. -/
def peek (s : IStream) : Option Char × IStream :=
  if !s.good then (none, { s with fail := true })
  else
    match s.buf with
    | [] => (none, { s with eof := true })
    | c :: _ => (some c, s)

/-- `std::getline(s, str, delim)`: the characters up to the delimiter, which is extracted and
dropped, or up to the end; `none` when the stream is in a failed state afterwards (it was not
good, or nothing was extracted). -/
def getline (s : IStream) (delim : Char) : Option (List Char) × IStream :=
  if !s.good then (none, { s with fail := true })
  else
    match s.buf.span (fun c => c != delim) with
    | (str, []) =>
      if str.isEmpty then (none, { buf := [], eof := true, fail := true })
      else (some str, { buf := [], eof := true })
    | (str, _ :: rest) => (some str, { s with buf := rest })

/-- `s >> ch` for a `char`: skips whitespace and extracts one character. -/
def readChar (s : IStream) : Option Char × IStream :=
  if !s.good then (none, { s with fail := true })
  else
    match s.buf.dropWhile isspace with
    | [] => (none, { buf := [], eof := true, fail := true })
    | c :: rest => (some c, { s with buf := rest })

/-- `s >> str` for a `std::string`: skips whitespace and extracts the characters up to the
next whitespace or the end. -/
def readWord (s : IStream) : Option (List Char) × IStream :=
  if !s.good then (none, { s with fail := true })
  else
    match (s.buf.dropWhile isspace).span (fun c => !isspace c) with
    | ([], rest) => (none, { buf := rest, eof := rest.isEmpty, fail := true })
    | (str, []) => (some str, { buf := [], eof := true })
    | (str, rest) => (some str, { s with buf := rest })

/-- The number a sequence of decimal digits denotes, as `num_get` accumulates it. -/
def accumulate (digits : List Char) : Nat :=
  digits.foldl (fun acc d => 10 * acc + (d.toNat - '0'.toNat)) 0

/-- `s >> i` for an `int`: skips whitespace, takes an optional sign and the longest run of
decimal digits; fails when there is no digit or the number does not fit in `int`. -/
def readInt (s : IStream) : Option Int × IStream :=
  if !s.good then (none, { s with fail := true })
  else
    let b := s.buf.dropWhile isspace
    let negative := b.head? == some '-'
    let b := if b.head? == some '-' || b.head? == some '+' then b.tail else b
    match b.span Char.isDigit with
    | ([], rest) => (none, { buf := rest, eof := rest.isEmpty, fail := true })
    | (digits, rest) =>
      let v : Int := if negative then -(accumulate digits : Int) else (accumulate digits : Int)
      if v < -2147483648 || 2147483647 < v then
        (none, { buf := rest, eof := rest.isEmpty, fail := true })
      else (some v, { buf := rest, eof := rest.isEmpty })

end IStream

/-- The body of the `while` loop of `parseCommandParameters` for one token: the parameter to
append, or `none` where the function returns the empty command. -/
def parseParameter (env : Environment) (token : List Char) : Option Any :=
  let token := trim token
  let sstoken : IStream := { buf := token }
  let ch := sstoken.peek.1
  let sstoken := sstoken.peek.2
  if ch.any Char.isDigit then
    if !token.contains '.' then
      match sstoken.readInt with
      | (some i, _) => some (Any.integer i)
      | (none, sstoken) => if sstoken.good then env.readFloat sstoken.buf else none
    else if sstoken.good then env.readFloat sstoken.buf
    else none
  else if ch == some '"' then
    let sstoken := sstoken.readChar.2
    match sstoken.getline '"' with
    | (none, _) => none
    | (some s, sstoken) =>
      if sstoken.peek.1 != none then none else some (Any.string (String.mk (c_str s)))
  else if token == "false".data || token == "FALSE".data then some (Any.bool false)
  else if token == "true".data || token == "TRUE".data then some (Any.bool true)
  else if ch == some '!' then
    let sstoken := sstoken.readChar.2
    let r :=
      if sstoken.peek.1 == some '"' then
        let sstoken := sstoken.peek.2.readChar.2
        match sstoken.getline '"' with
        | (none, _) => none
        | (some s, sstoken) => some (s, sstoken)
      else
        match sstoken.peek.2.readWord with
        | (none, sstoken) => some ([], sstoken)
        | (some s, sstoken) => some (s, sstoken)
    match r with
    | none => none
    | some (s, sstoken) =>
      if sstoken.peek.1 != none then none
      else
        match env.readFile (String.mk (c_str s)) with
        | none => none
        | some contents => some (Any.blob contents)
  else none

/-- The loop `while (std::getline(ss, token, ','))` of `parseCommandParameters`; `bound` limits
the number of iterations and `none` says that it was reached. Every iteration extracts at least
one character, so the number of unread characters plus one is a sufficient bound. -/
def parseParameters (env : Environment) :
    Nat → IStream → GenericCommand → Option GenericCommand
  | 0, _, _ => none
  | bound + 1, ss, cmd =>
    match ss.getline ',' with
    | (none, _) => some cmd
    | (some token, ss) =>
      match parseParameter env token with
      | none => some {}
      | some param =>
        parseParameters env bound ss { cmd with params := cmd.params ++ [param] }

/-- `parseCommandParameters`. -/
def parseCommandParameters (env : Environment) (str : String) : Option GenericCommand :=
  let trimmed := trim str.data
  let ss : IStream := { buf := trimmed }
  match ss.getline ' ' with
  | (none, _) => some {}
  | (some token, ss) =>
    let sstoken : IStream := { buf := token }
    let named :=
      if token.contains '.' then
        match sstoken.getline '.' with
        | (none, _) => none
        | (some conName, sstoken) => some (String.mk conName, sstoken)
      else some ("", sstoken)
    match named with
    | none => some {}
    | some (conName, sstoken) =>
      let cmd :=
        match sstoken.readWord.1 with
        | some word => String.mk word
        | none => ""
      let sstoken := sstoken.readWord.2
      if sstoken.peek.1 != none then some {}
      else
        parseParameters env (ss.buf.length + 1) ss { conName := conName, cmd := cmd }

/-- A parameter literal of a command line: a run of decimal digits, a double-quoted string with
the given characters between the quotes, or one of `true`, `TRUE`, `false`, `FALSE`. -/
inductive Literal where
  | int (digits : List Char)
  | str (body : List Char)
  | bool (value upper : Bool)
  deriving DecidableEq, Repr

namespace Literal

/-- The characters of the literal as typed. -/
def text : Literal → List Char
  | .int digits => digits
  | .str body => '"' :: body ++ ['"']
  | .bool true false => "true".data
  | .bool true true => "TRUE".data
  | .bool false false => "false".data
  | .bool false true => "FALSE".data

/-- The number a run of decimal digits denotes. -/
def number (digits : List Char) : Nat :=
  Nat.ofDigits 10 (digits.reverse.map fun d => d.toNat - 48)

/-- The value the literal stands for. -/
def value : Literal → Any
  | .int digits => Any.integer (number digits)
  | .str body => Any.string (String.mk body)
  | .bool value _ => Any.bool value

/-- A non-negative decimal integer that fits in `int`, a string without `"` and `,` between
its quotes, or a boolean. -/
def WellFormed : Literal → Prop
  | .int digits =>
    digits ≠ [] ∧ (∀ d ∈ digits, d.isDigit = true) ∧ number digits ≤ 2147483647
  | .str body => '"' ∉ body ∧ ',' ∉ body
  | .bool _ _ => True

/-- The string between the quotes holds no NUL character. -/
def NulFree : Literal → Prop
  | .str body => Char.ofNat 0 ∉ body
  | _ => True

end Literal

/-- The parameters `p1,p2,...,pn` of a command line. -/
def paramsText : List Literal → List Char
  | [] => []
  | [l] => l.text
  | l :: rest => l.text ++ ',' :: paramsText rest

/-- The first word of a command line: `w`, or `c.w` with a connection name. -/
def firstToken (conName : Option String) (word : String) : List Char :=
  match conName with
  | none => word.data
  | some c => c.data ++ '.' :: word.data

/-- The command line `w p1,p2,...,pn`, or `c.w p1,p2,...,pn` with a connection name. -/
def commandLine (conName : Option String) (word : String) (lits : List Literal) : String :=
  String.mk (firstToken conName word ++ ' ' :: paramsText lits)

/-- An environment without floating-point parameters and without files. -/
def Example.env : Environment where
  readFloat := fun _ => none
  readFile := fun _ => none

end ServerConsole

/-! ## Vocabulary of the statements -/

section Vocabulary

variable {Obj : Type}

/-- The entry is a procedure registered by `registerRPC` or `registerControlRPC`, not the
reserved generic entry. -/
def Info.isProcedure (info : Info Obj) : Bool :=
  match info.dispatcher with
  | .generic => false
  | .rpc _ => true
  | .control _ => true

/-- The header of the reply to `hdr`, as `Send::result` (`success = 1`) and `Send::error`
(`success = 0`) assemble it for a buffer of `n` bytes. -/
def replyHeader (hdr : Header) (success n : Nat) : Header :=
  { hdr with hasDbg := 0, isReply := 1, success := success, size := n % 2 ^ Header.kSizeBits }

/-- Connection states reachable from a fresh connection (counter 0, nothing pending) by
successful dispatches of asynchronous procedures that do not wrap the 32-bit counter and by
completions. -/
inductive Issued {OD : Type} (env : Collaborators OD) : World Obj OD → Prop where
  | fresh (w : World Obj OD) : w.out.pending = {} → Issued env w
  | dispatch {w w1 : World Obj OD} (f : Proc Obj) (params : f.P) (hdr : Header) :
      Issued env w → w.out.pending.counter + 1 < 2 ^ 32 →
      Dispatcher.implAsync f params w hdr = .ok w1 → Issued env w1
  | complete {w : World Obj OD} (f : Proc Obj) (counter : Nat) (hdr : Header)
      (ft : Except String f.R) :
      Issued env w → Issued env (Dispatcher.processReady env f w counter hdr ft)

/-- The names of all entries, ordinary first. -/
def TableImpl.names (t : TableImpl Obj) : List String :=
  t.m_rpcs.map (fun info => info.name) ++ t.m_controlrpcs.map (fun info => info.name)

/-- The calls `registerRPC(id, n1, f1)`, `registerRPC(id + 1, n2, f2)`, ... in a row; the
first failing `assert` ends the row. -/
def TableImpl.registerAll (t : TableImpl Obj) (rpcid : Nat) :
    List (String × Proc Obj) → Registration Obj
  | [] => .ok t
  | p :: rest =>
    match t.registerRPC rpcid p.1 p.2 with
    | .ok t => TableImpl.registerAll t (rpcid + 1) rest
    | .error t => .error t

/-- Tables reachable from the empty table by successful registrations, in any order. -/
inductive Reachable : TableImpl Obj → Prop where
  | empty (m_name : String) : Reachable { m_name := m_name }
  | generic {t t1 : TableImpl Obj} :
      Reachable t → t.registerGenericRPC = .ok t1 → Reachable t1
  | rpc {t t1 : TableImpl Obj} (rpcid : Nat) (name : String) (f : Proc Obj) :
      Reachable t → t.registerRPC rpcid name f = .ok t1 → Reachable t1
  | control {t t1 : TableImpl Obj} (name : String) (f : ControlFn) :
      Reachable t → t.registerControlRPC name f = .ok t1 → Reachable t1

/-- Tables built the way the header intends: `registerGenericRPC` on the empty table first,
then successful `registerRPC` and `registerControlRPC` calls. -/
inductive Built : TableImpl Obj → Prop where
  | generic (m_name : String) {t : TableImpl Obj} :
      TableImpl.registerGenericRPC { m_name := m_name } = .ok t → Built t
  | rpc {t t1 : TableImpl Obj} (rpcid : Nat) (name : String) (f : Proc Obj) :
      Built t → t.registerRPC rpcid name f = .ok t1 → Built t1
  | control {t t1 : TableImpl Obj} (name : String) (f : ControlFn) :
      Built t → t.registerControlRPC name f = .ok t1 → Built t1

end Vocabulary

/-! ## A concrete instance

A target object holding one number, with a synchronous procedure `add` and a procedure `boom`
that always throws; the concrete inputs of the statements below are taken from it. -/

namespace Example

/-- The `ObjectData` state is the expected token; a vector of `Any` is written as a kind
byte followed by one value (kind 0: the empty vector, kind 1: one string). -/
def env : Collaborators String where
  catchExceptions := true
  writeAny := fun a =>
    match a with
    | .none => [0]
    | .bool b => [1, b.toNat]
    | .unsignedInteger u => [3, u % 256]
    | _ => [9]
  readAnys := fun s =>
    match s with
    | [] => none
    | 0 :: rest => some ([], rest)
    | 1 :: rest => (readString rest).map fun r => ([Any.string r.1], r.2)
    | _ :: b :: rest => some ([Any.unsignedInteger b], rest)
    | _ => none
  checkAuthToken := fun secret token => secret == token
  getProperty := fun _ _ => Any.none
  setProperty := fun od _ _ _ => (false, od)

def add : Proc Nat where
  P := Nat
  R := Nat
  isasync := false
  isVoid := false
  toTuple := fun a =>
    match a with
    | [Any.unsignedInteger n] => some n
    | _ => none
  readParams := fun s =>
    match s with
    | b :: rest => some (b, rest)
    | [] => none
  callMethod := fun obj p => (obj + p, .ok (obj + p))
  writeR := fun r => [r % 256]
  toAny := fun r => Any.unsignedInteger r

def boom : Proc Nat where
  P := Unit
  R := Unit
  isasync := false
  isVoid := true
  toTuple := fun a =>
    match a with
    | [] => some ()
    | _ => none
  readParams := fun s => some ((), s)
  callMethod := fun obj _ => (obj, .error "boom")
  writeR := fun _ => []
  toAny := fun _ => Any.none

/-- An asynchronous procedure: the call returns a future at once. -/
def slow : Proc Nat where
  P := Nat
  R := Nat
  isasync := true
  isVoid := false
  toTuple := fun a =>
    match a with
    | [Any.unsignedInteger n] => some n
    | _ => none
  readParams := fun s =>
    match s with
    | b :: rest => some (b, rest)
    | [] => none
  callMethod := fun obj p => (obj, .ok p)
  writeR := fun r => [r % 256]
  toAny := fun r => Any.unsignedInteger r

/-- Every pending call of `slow` completes with the value 7. -/
def completion : PendingFuture → Completion Nat :=
  fun _ => { f := slow, ft := .ok (7 : Nat) }

def empty : TableImpl Nat := { m_name := "Calc" }

/-- The table after `registerGenericRPC`, `registerRPC(1, "add", add)` and
`registerRPC(2, "boom", boom)`. -/
def table : TableImpl Nat where
  m_name := "Calc"
  m_rpcs := [Info.mk "genericRPC" .generic, Info.mk "add" (.rpc add), Info.mk "boom" (.rpc boom)]
  m_controlrpcs :=
    [Info.mk "__auth" (.control .auth), Info.mk "__getProperty" (.control .getProperty),
      Info.mk "__setProperty" (.control .setProperty)]

/-- A fresh connection: nothing pending, not authenticated, nothing sent. -/
def world : World Nat String where
  obj := 0
  inp := []
  out := { objData := "secret" }
  trp := {}

/-- The request headers of two calls of `slow`. -/
def request1 : Header := { counter := 10, rpcid := 3 }

/-- The connection after the first call of `slow` was dispatched. -/
def world1 : World Nat String where
  obj := 0
  inp := []
  out := { objData := "secret", pending := { counter := 1, futures := [(0, ⟨0, request1⟩)] } }
  trp := {}

end Example

/-! ## Bytes and headers -/

theorem leBytes_length (n v : Nat) : (leBytes n v).length = n := by
  induction n generalizing v with
  | zero => rfl
  | succ n ih => simp [leBytes, ih]

theorem leValue_leBytes (n v : Nat) : leValue (leBytes n v) = v % 256 ^ n := by
  induction n generalizing v with
  | zero => simp [leBytes, leValue, Nat.mod_one]
  | succ n ih =>
    simp only [leBytes, leValue, ih, Nat.mod_mod]
    rw [pow_succ, mul_comm (256 ^ n) 256, Nat.mod_mul]

theorem Header.all__lt (h : Header) (hr : h.InRange) : h.all_ < 256 ^ 8 := by
  obtain ⟨size, counter, rpcid, hasDbg, isReply, success⟩ := h
  simp only [Header.InRange, Header.kSizeBits, Header.kCounterBits, Header.kRPCIdBits] at hr
  obtain ⟨h1, h2, h3, h4, h5, h6⟩ := hr
  simp only [Header.all_]
  norm_num at h1 h2 h3 ⊢
  omega

theorem Header.ofAll_all_ (h : Header) (hr : h.InRange) : Header.ofAll h.all_ = h := by
  obtain ⟨size, counter, rpcid, hasDbg, isReply, success⟩ := h
  simp only [Header.InRange, Header.kSizeBits, Header.kCounterBits, Header.kRPCIdBits] at hr
  obtain ⟨h1, h2, h3, h4, h5, h6⟩ := hr
  simp only [Header.ofAll, Header.all_, Header.mk.injEq]
  norm_num at h1 h2 h3 ⊢
  refine ⟨?_, ?_, ?_, ?_, ?_, ?_⟩ <;> omega

theorem readHeader_patchHeader (o : Stream) (hdr : Header) (hr : hdr.InRange) :
    readHeader (patchHeader o hdr) = some (hdr, o.drop 8) := by
  have hlen : (leBytes 8 hdr.all_).length = 8 := leBytes_length 8 _
  have htake : (leBytes 8 hdr.all_ ++ List.drop 8 o).take 8 = leBytes 8 hdr.all_ := by
    rw [List.take_append_of_le_length (by omega), List.take_of_length_le (by omega)]
  have hdrop : (leBytes 8 hdr.all_ ++ List.drop 8 o).drop 8 = List.drop 8 o := by
    rw [List.drop_append_of_le_length (by omega), List.drop_of_length_le (by omega),
      List.nil_append]
  unfold readHeader patchHeader
  rw [if_neg (by simp [hlen]), htake, hdrop, leValue_leBytes,
    Nat.mod_eq_of_lt (Header.all__lt hdr hr), Header.ofAll_all_ hdr hr]

theorem replyHeader_inRange (hdr : Header) (hr : hdr.InRange) (success n : Nat)
    (hs : success < 2) : (replyHeader hdr success n).InRange := by
  obtain ⟨h1, h2, h3, h4, h5, h6⟩ := hr
  refine ⟨?_, h2, h3, ?_, ?_, hs⟩
  · exact Nat.mod_lt _ (by norm_num [Header.kSizeBits])
  · norm_num [replyHeader]
  · norm_num [replyHeader]

theorem drop_header_writeString (hdr : Header) (what : String) :
    (writeString (writeHeader [] hdr) what).drop 8 = writeString [] what := by
  have hlen : (leBytes 8 hdr.all_).length = 8 := leBytes_length 8 _
  unfold writeString writeHeader
  rw [List.nil_append, List.nil_append, List.append_assoc,
    List.drop_append_of_le_length (by omega), List.drop_of_length_le (by omega),
    List.nil_append]

theorem Send.error_eq (trp : Transport) (hdr : Header) (what : String) :
    Send.error trp hdr what =
      trp.send (patchHeader (writeString (writeHeader [] hdr) what)
        (replyHeader hdr 0 (writeSize (writeString (writeHeader [] hdr) what)))) := rfl

theorem Send.result_eq (trp : Transport) (hdr : Header) (o : Stream) :
    Send.result trp hdr o = trp.send (patchHeader o (replyHeader hdr 1 (writeSize o))) := rfl

/-- What `Send::error` puts on the transport: one buffer, whose header is the request header
with the reply flags set and whose payload is the text. -/
theorem Send.error_sends (trp : Transport) (hdr : Header) (hr : hdr.InRange) (what : String) :
    ∃ msg r, Send.error trp hdr what = trp.send msg ∧
      readHeader msg = some (r, writeString [] what) ∧
      r.counter = hdr.counter ∧ r.rpcid = hdr.rpcid ∧ r.isReply = 1 ∧ r.success = 0 := by
  refine ⟨_, replyHeader hdr 0 (writeSize (writeString (writeHeader [] hdr) what)),
    Send.error_eq trp hdr what, ?_, rfl, rfl, rfl, rfl⟩
  rw [readHeader_patchHeader _ _ (replyHeader_inRange hdr hr 0 _ (by norm_num)),
    drop_header_writeString]

/-- What `Send::result` puts on the transport: one buffer, whose header is the request header
with the reply flags set and whose payload is what follows the first eight bytes of `o`. -/
theorem Send.result_sends (trp : Transport) (hdr : Header) (hr : hdr.InRange) (o : Stream) :
    ∃ msg r, Send.result trp hdr o = trp.send msg ∧
      readHeader msg = some (r, o.drop 8) ∧
      r.counter = hdr.counter ∧ r.rpcid = hdr.rpcid ∧ r.isReply = 1 ∧ r.success = 1 := by
  refine ⟨_, replyHeader hdr 1 (writeSize o), Send.result_eq trp hdr o, ?_, rfl, rfl, rfl, rfl⟩
  rw [readHeader_patchHeader _ _ (replyHeader_inRange hdr hr 1 _ (by norm_num))]

/-! ## Dispatch -/

section DispatchLemmas

variable {Obj OD : Type}

theorem TableImpl.lookup_name (t : TableImpl Obj) (name : String) (info : Info Obj)
    (h : t.lookup name = some info) : info.name = name := by
  unfold TableImpl.lookup at h
  cases hn : t.getByName name with
  | some i =>
    rw [hn] at h
    cases h
    have := List.find?_some hn
    simpa using this
  | none =>
    rw [hn] at h
    have := List.find?_some h
    simpa using this

theorem TableImpl.dispatcher_rpc (env : Collaborators OD) (t : TableImpl Obj) (depth : Nat)
    (info : Info Obj) (f : Proc Obj) (hdr : Header) (w : World Obj OD)
    (h : info.dispatcher = .rpc f) :
    t.dispatcher env depth info hdr w = TableImpl.rpcDispatcher env f hdr w := by
  unfold TableImpl.dispatcher
  rw [h]

theorem TableImpl.dispatcher_control (env : Collaborators OD) (t : TableImpl Obj) (depth : Nat)
    (info : Info Obj) (f : ControlFn) (hdr : Header) (w : World Obj OD)
    (h : info.dispatcher = .control f) :
    t.dispatcher env depth info hdr w = TableImpl.controlDispatcher env info.name f hdr w := by
  unfold TableImpl.dispatcher
  rw [h]

theorem TableImpl.dispatcher_generic_found (env : Collaborators OD) (t : TableImpl Obj)
    (depth : Nat) (info target : Info Obj) (hdr : Header) (w : World Obj OD) (name : String)
    (inp : Stream) (h : info.dispatcher = .generic) (hid : hdr.rpcid = 0)
    (hname : readString w.inp = some (name, inp)) (hfound : t.lookup name = some target) :
    t.dispatcher env (depth + 1) info hdr w =
      t.dispatcher env depth target hdr { w with inp := inp } := by
  conv_lhs => unfold TableImpl.dispatcher
  simp [h, Header.isGenericRPC, hid, hname, hfound]

theorem TableImpl.dispatcher_generic_not_found (env : Collaborators OD) (t : TableImpl Obj)
    (depth : Nat) (info : Info Obj) (hdr : Header) (w : World Obj OD) (name : String)
    (inp : Stream) (h : info.dispatcher = .generic) (hid : hdr.rpcid = 0)
    (hname : readString w.inp = some (name, inp)) (hfound : t.lookup name = none) :
    t.dispatcher env depth info hdr w =
      .ok { w with inp := inp, trp := Send.error w.trp hdr "Generic RPC not found" } := by
  unfold TableImpl.dispatcher
  simp [h, Header.isGenericRPC, hid, hname, hfound]

theorem TableImpl.rpcDispatcher_unauthenticated (env : Collaborators OD) (f : Proc Obj)
    (hdr : Header) (w : World Obj OD) (hauth : w.out.authPassed = false) :
    TableImpl.rpcDispatcher env f hdr w = .ok { w with trp := w.trp.close } := by
  unfold TableImpl.rpcDispatcher
  simp [hauth]

theorem TableImpl.controlDispatcher_unauthenticated (env : Collaborators OD) (name : String)
    (f : ControlFn) (hdr : Header) (w : World Obj OD) (hid : hdr.rpcid = 0)
    (hauth : w.out.authPassed = false) (hname : name ≠ "__auth") :
    TableImpl.controlDispatcher env name f hdr w = .ok { w with trp := w.trp.close } := by
  unfold TableImpl.controlDispatcher
  simp [hauth, hname, Header.isGenericRPC, hid]

theorem TableImpl.processCall_eq (env : Collaborators OD) (t : TableImpl Obj) (hdr : Header)
    (w : World Obj OD) (info : Info Obj) (h : t.m_rpcs.get? hdr.rpcid = some info) :
    t.processCall env hdr w = t.dispatcher env (w.inp.length + 1) info hdr w := by
  have hlt : hdr.rpcid < t.m_rpcs.length := by
    by_contra hge
    rw [List.get?_eq_none.2 (by omega)] at h
    cases h
  unfold TableImpl.processCall TableImpl.isValid
  rw [if_pos (by simpa using hlt), h]

/-- A procedure entry reached on a connection that is not authenticated, and whose name is not
`__auth`: the dispatcher closes the transport and returns. -/
theorem TableImpl.dispatcher_procedure_unauthenticated (env : Collaborators OD)
    (t : TableImpl Obj) (depth : Nat) (info : Info Obj) (hdr : Header) (w : World Obj OD)
    (hproc : info.isProcedure = true) (hid : hdr.rpcid = 0 ∨ ∃ f, info.dispatcher = .rpc f)
    (hauth : w.out.authPassed = false) (hname : info.name ≠ "__auth") :
    t.dispatcher env depth info hdr w = .ok { w with trp := w.trp.close } := by
  cases hd : info.dispatcher with
  | generic => simp [Info.isProcedure, hd] at hproc
  | rpc f =>
    rw [TableImpl.dispatcher_rpc env t depth info f hdr w hd]
    exact TableImpl.rpcDispatcher_unauthenticated env f hdr w hauth
  | control f =>
    rw [TableImpl.dispatcher_control env t depth info f hdr w hd]
    rcases hid with hid | ⟨g, hg⟩
    · exact TableImpl.controlDispatcher_unauthenticated env info.name f hdr w hid hauth hname
    · rw [hd] at hg
      cases hg

end DispatchLemmas

/-! ## Registration -/

section RegistrationLemmas

variable {Obj : Type}

theorem TableImpl.registerControlRPC_ok (t t1 : TableImpl Obj) (name : String) (f : ControlFn) :
    t.registerControlRPC name f = .ok t1 ↔
      t.getByName name = none ∧ t.getControlByName name = none ∧
        t1 = { t with m_controlrpcs := t.m_controlrpcs ++ [Info.mk name (.control f)] } := by
  unfold TableImpl.registerControlRPC
  cases h1 : t.getByName name <;> cases h2 : t.getControlByName name <;>
    simp [eq_comm]

theorem TableImpl.registerRPC_ok (t t1 : TableImpl Obj) (rpcid : Nat) (name : String)
    (f : Proc Obj) :
    t.registerRPC rpcid name f = .ok t1 ↔
      rpcid = t.m_rpcs.length ∧ t.getByName name = none ∧ t.getControlByName name = none ∧
        t1 = { t with m_rpcs := t.m_rpcs ++ [Info.mk name (.rpc f)] } := by
  unfold TableImpl.registerRPC
  by_cases h0 : rpcid = t.m_rpcs.length <;> cases h1 : t.getByName name <;>
    cases h2 : t.getControlByName name <;> simp [h0, eq_comm]

theorem TableImpl.registerGenericRPC_empty (m_name : String) :
    TableImpl.registerGenericRPC ({ m_name := m_name } : TableImpl Obj) =
      .ok { m_name := m_name,
            m_rpcs := [Info.mk "genericRPC" .generic],
            m_controlrpcs := [Info.mk "__auth" (.control .auth),
              Info.mk "__getProperty" (.control .getProperty),
              Info.mk "__setProperty" (.control .setProperty)] } := rfl

end RegistrationLemmas

section BuiltLemmas

variable {Obj : Type}

/-- In a table built with `registerGenericRPC` first, entry 0 is the generic entry and the
name `__auth` belongs to the control procedure bound to `InProcessorData::auth`. -/
theorem Built.standard {t : TableImpl Obj} (hb : Built t) :
    t.m_rpcs.head? = some (Info.mk "genericRPC" .generic) ∧
      t.getByName "__auth" = none ∧
      t.getControlByName "__auth" = some (Info.mk "__auth" (.control .auth)) := by
  induction hb with
  | generic m_name h =>
    rw [TableImpl.registerGenericRPC_empty] at h
    cases h
    exact ⟨rfl, rfl, rfl⟩
  | @rpc t0 t1 rpcid name f _ h ih =>
    obtain ⟨_, _, h2, rfl⟩ := (TableImpl.registerRPC_ok t0 t1 rpcid name f).1 h
    obtain ⟨ih1, ih2, ih3⟩ := ih
    have hne : name ≠ "__auth" := by
      rintro rfl
      rw [h2] at ih3
      cases ih3
    refine ⟨?_, ?_, ih3⟩
    · cases hl : t0.m_rpcs with
      | nil => rw [hl] at ih1; cases ih1
      | cons a l => rw [hl] at ih1; simpa using ih1
    · unfold TableImpl.getByName at ih2 ⊢
      simp [List.find?_append, ih2, hne]
  | @control t0 t1 name f _ h ih =>
    obtain ⟨_, _, rfl⟩ := (TableImpl.registerControlRPC_ok t0 t1 name f).1 h
    obtain ⟨ih1, ih2, ih3⟩ := ih
    refine ⟨ih1, ih2, ?_⟩
    unfold TableImpl.getControlByName at ih3 ⊢
    simp [List.find?_append, ih3]

theorem Built.generic_entry {t : TableImpl Obj} (hb : Built t) (hdr : Header)
    (hid : hdr.rpcid = 0) : t.m_rpcs.get? hdr.rpcid = some (Info.mk "genericRPC" .generic) := by
  rw [hid, List.get?_zero]
  exact hb.standard.1

end BuiltLemmas

/-! ## The nesting bound -/

section Totality

variable {Obj OD : Type}

theorem readString_length (s rest : Stream) (name : String)
    (h : readString s = some (name, rest)) : rest.length + 4 ≤ s.length := by
  unfold readString at h
  by_cases h4 : s.length < 4
  · rw [if_pos h4] at h
    cases h
  · rw [if_neg h4] at h
    dsimp only at h
    by_cases hlen : (s.drop 4).length < leValue (s.take 4)
    · rw [if_pos hlen] at h
      cases h
    · rw [if_neg hlen] at h
      simp only [Option.some.injEq, Prod.mk.injEq] at h
      obtain ⟨_, rfl⟩ := h
      simp only [List.length_drop]
      omega

theorem Dispatcher.impl_ne_nesting (env : Collaborators OD) (f : Proc Obj) (params : f.P)
    (w : World Obj OD) (hdr : Header) :
    Dispatcher.impl env f params w hdr ≠ .error .nesting := by
  unfold Dispatcher.impl
  split
  · unfold Dispatcher.implAsync
    rcases f.callMethod w.obj params with ⟨obj, what | r⟩ <;> simp
  · unfold Dispatcher.implSync
    dsimp only
    generalize Caller.doCall env f w.obj params (writeHeader [] hdr) hdr = r
    rcases r with ⟨obj, what | o⟩
    · by_cases hc : env.catchExceptions = true <;> simp [hc]
    · simp

theorem TableImpl.rpcDispatcher_ne_nesting (env : Collaborators OD) (f : Proc Obj) (hdr : Header)
    (w : World Obj OD) : TableImpl.rpcDispatcher env f hdr w ≠ .error .nesting := by
  unfold TableImpl.rpcDispatcher
  intro h
  split at h
  · simp at h
  · split at h
    · split at h
      · simp at h
      · split at h
        · simp at h
        · exact Dispatcher.impl_ne_nesting env f _ _ hdr h
    · split at h
      · simp at h
      · exact Dispatcher.impl_ne_nesting env f _ _ hdr h

theorem TableImpl.controlDispatcher_ne_nesting (env : Collaborators OD) (name : String)
    (f : ControlFn) (hdr : Header) (w : World Obj OD) :
    TableImpl.controlDispatcher env name f hdr w ≠ .error .nesting := by
  unfold TableImpl.controlDispatcher
  intro h
  split at h
  · simp at h
  · split at h
    · simp at h
    · split at h
      · simp at h
      · split at h <;> simp at h

/-- The bound on the nesting of generic calls is never reached when it exceeds the number of
bytes in the stream: every level reads a name of at least four bytes. -/
theorem TableImpl.dispatcher_ne_nesting (env : Collaborators OD) (t : TableImpl Obj) :
    ∀ (depth : Nat) (info : Info Obj) (hdr : Header) (w : World Obj OD),
      w.inp.length < depth → t.dispatcher env depth info hdr w ≠ .error .nesting := by
  intro depth
  induction depth with
  | zero => intro info hdr w h; omega
  | succ depth ih =>
    intro info hdr w hlen
    cases hd : info.dispatcher with
    | rpc f =>
      rw [TableImpl.dispatcher_rpc env t _ info f hdr w hd]
      exact TableImpl.rpcDispatcher_ne_nesting env f hdr w
    | control f =>
      rw [TableImpl.dispatcher_control env t _ info f hdr w hd]
      exact TableImpl.controlDispatcher_ne_nesting env info.name f hdr w
    | generic =>
      by_cases hid : hdr.rpcid = 0
      · cases hname : readString w.inp with
        | none =>
          unfold TableImpl.dispatcher
          simp [hd, Header.isGenericRPC, hid, hname]
        | some p =>
          obtain ⟨name, inp⟩ := p
          have hl := readString_length _ _ _ hname
          cases hfound : t.lookup name with
          | none =>
            rw [TableImpl.dispatcher_generic_not_found env t _ info hdr w name inp hd hid
              hname hfound]
            simp
          | some target =>
            rw [TableImpl.dispatcher_generic_found env t depth info target hdr w name inp hd
              hid hname hfound]
            exact ih target hdr _ (by simp only; omega)
      · unfold TableImpl.dispatcher
        simp [hd, Header.isGenericRPC, hid]

/-- `processCall` always ends within the nesting bound it sets. -/
theorem TableImpl.processCall_ne_nesting (env : Collaborators OD) (t : TableImpl Obj)
    (hdr : Header) (w : World Obj OD) : t.processCall env hdr w ≠ .error .nesting := by
  cases h : t.m_rpcs.get? hdr.rpcid with
  | some info =>
    rw [TableImpl.processCall_eq env t hdr w info h]
    exact TableImpl.dispatcher_ne_nesting env t _ info hdr w (Nat.lt_succ_self _)
  | none =>
    unfold TableImpl.processCall
    rw [h]
    split <;> simp

end Totality

/-! ## Further lemmas -/

section ClaimLemmas

variable {Obj OD : Type}

theorem drop_header_append (hdr : Header) (payload : Stream) :
    (writeHeader [] hdr ++ payload).drop 8 = payload := by
  have hlen : (leBytes 8 hdr.all_).length = 8 := leBytes_length 8 _
  unfold writeHeader
  rw [List.nil_append, List.drop_append_of_le_length (by omega),
    List.drop_of_length_le (by omega), List.nil_append]

theorem TableImpl.getByName_eq_none (t : TableImpl Obj) (name : String) :
    t.getByName name = none ↔ ∀ info ∈ t.m_rpcs, info.name ≠ name := by
  unfold TableImpl.getByName
  simp [List.find?_eq_none]

theorem TableImpl.getControlByName_eq_none (t : TableImpl Obj) (name : String) :
    t.getControlByName name = none ↔ ∀ info ∈ t.m_controlrpcs, info.name ≠ name := by
  unfold TableImpl.getControlByName
  simp [List.find?_eq_none]

theorem TableImpl.registerRPC_error (t t1 : TableImpl Obj) (rpcid : Nat) (name : String)
    (f : Proc Obj) (h : t.registerRPC rpcid name f = .error t1) : t1 = t := by
  unfold TableImpl.registerRPC at h
  split_ifs at h <;> cases h <;> rfl

theorem TableImpl.registerControlRPC_error (t t1 : TableImpl Obj) (name : String)
    (f : ControlFn) (h : t.registerControlRPC name f = .error t1) : t1 = t := by
  unfold TableImpl.registerControlRPC at h
  split_ifs at h <;> cases h <;> rfl

theorem TableImpl.registerAll_ok (procs : List (String × Proc Obj)) :
    ∀ (t t1 : TableImpl Obj) (rpcid : Nat), t.registerAll rpcid procs = .ok t1 →
      t1.m_rpcs = t.m_rpcs ++ procs.map (fun p => Info.mk p.1 (.rpc p.2)) ∧
        t1.m_controlrpcs = t.m_controlrpcs := by
  induction procs with
  | nil =>
    intro t t1 rpcid h
    simp only [TableImpl.registerAll] at h
    cases h
    simp
  | cons p rest ih =>
    intro t t1 rpcid h
    simp only [TableImpl.registerAll] at h
    cases hreg : t.registerRPC rpcid p.1 p.2 with
    | error e => rw [hreg] at h; cases h
    | ok t2 =>
      rw [hreg] at h
      obtain ⟨_, _, _, rfl⟩ := (TableImpl.registerRPC_ok t t2 rpcid p.1 p.2).1 hreg
      obtain ⟨h1, h2⟩ := ih _ t1 _ h
      exact ⟨by simpa using h1, h2⟩

theorem TableImpl.not_mem_names (t : TableImpl Obj) (name : String)
    (h1 : t.getByName name = none) (h2 : t.getControlByName name = none) : name ∉ t.names := by
  rw [TableImpl.getByName_eq_none] at h1
  rw [TableImpl.getControlByName_eq_none] at h2
  unfold TableImpl.names
  simp only [List.mem_append, List.mem_map, not_or, not_exists, not_and]
  exact ⟨fun info hm => h1 info hm, fun info hm => h2 info hm⟩

/-- In a table built with `registerGenericRPC` first, all entry names are pairwise distinct,
within each collection and between the two. -/
theorem Built.names_nodup {t : TableImpl Obj} (hb : Built t) : t.names.Nodup := by
  induction hb with
  | generic m_name h =>
    rw [TableImpl.registerGenericRPC_empty] at h
    cases h
    simp [TableImpl.names]
  | @rpc t0 t1 rpcid name f _ h ih =>
    obtain ⟨_, h1, h2, rfl⟩ := (TableImpl.registerRPC_ok t0 t1 rpcid name f).1 h
    have hnot := TableImpl.not_mem_names t0 name h1 h2
    have hperm : List.Perm
        (TableImpl.names { t0 with m_rpcs := t0.m_rpcs ++ [Info.mk name (.rpc f)] })
        (name :: t0.names) := by
      unfold TableImpl.names
      simp only [List.map_append, List.map_cons, List.map_nil, List.append_assoc,
        List.singleton_append]
      exact List.perm_middle
    exact hperm.nodup_iff.2 (List.nodup_cons.2 ⟨hnot, ih⟩)
  | @control t0 t1 name f _ h ih =>
    obtain ⟨h1, h2, rfl⟩ := (TableImpl.registerControlRPC_ok t0 t1 name f).1 h
    have hnot := TableImpl.not_mem_names t0 name h1 h2
    have hperm : List.Perm
        (TableImpl.names
          { t0 with m_controlrpcs := t0.m_controlrpcs ++ [Info.mk name (.control f)] })
        (name :: t0.names) := by
      unfold TableImpl.names
      simp only [List.map_append, List.map_cons, List.map_nil, ← List.append_assoc]
      exact List.perm_append_singleton _ _
    exact hperm.nodup_iff.2 (List.nodup_cons.2 ⟨hnot, ih⟩)

end ClaimLemmas

/-! ## The claims -/

section Claims

variable {Obj OD : Type}

/-- C1: on a connection whose `authPassed` is false, a call that reaches a registered procedure
other than `__auth`, directly by id or through the generic entry by name, ends with the transport
closed and nothing else changed: nothing is sent, the parameters stay in the stream (only the
name was read on the generic path), the target object, `authPassed` and the pending state are
as before. -/
theorem unauthenticated_call_closes (env : Collaborators OD) (t : TableImpl Obj) (hdr : Header)
    (w : World Obj OD) (hauth : w.out.authPassed = false) :
    (∀ info f, t.m_rpcs.get? hdr.rpcid = some info → info.dispatcher = .rpc f →
        t.processCall env hdr w = .ok { w with trp := w.trp.close }) ∧
    (∀ g name inp target, hdr.rpcid = 0 → t.m_rpcs.get? hdr.rpcid = some g →
        g.dispatcher = .generic → readString w.inp = some (name, inp) →
        t.lookup name = some target → target.isProcedure = true → name ≠ "__auth" →
        t.processCall env hdr w = .ok { w with inp := inp, trp := w.trp.close }) := by
  constructor
  · intro info f hinfo hf
    rw [TableImpl.processCall_eq env t hdr w info hinfo,
      TableImpl.dispatcher_rpc env t _ info f hdr w hf]
    exact TableImpl.rpcDispatcher_unauthenticated env f hdr w hauth
  · intro g name inp target hid hg hgen hname hfound hproc hne
    rw [TableImpl.processCall_eq env t hdr w g hg,
      TableImpl.dispatcher_generic_found env t _ g target hdr w name inp hgen hid hname hfound]
    have hn : target.name ≠ "__auth" := by
      rw [TableImpl.lookup_name t name target hfound]
      exact hne
    exact TableImpl.dispatcher_procedure_unauthenticated env t _ target hdr _ hproc (Or.inl hid)
      hauth hn

/-- Witness of C1: the direct call of `add` and the generic call of `__getProperty` on the fresh connection. -/
theorem unauthenticated_call_closes_witness :
    Example.table.processCall Example.env { rpcid := 1 } { Example.world with inp := [5] } =
        .ok { Example.world with inp := [5], trp := { sent := [], closed := true } } ∧
    Example.table.processCall Example.env {}
        { Example.world with inp := writeString [] "__getProperty" ++ [0] } =
        .ok { Example.world with inp := [0], trp := { sent := [], closed := true } } :=
  ⟨(unauthenticated_call_closes Example.env Example.table { rpcid := 1 }
      { Example.world with inp := [5] } rfl).1 (Info.mk "add" (.rpc Example.add)) Example.add
      rfl rfl,
   (unauthenticated_call_closes Example.env Example.table {}
      { Example.world with inp := writeString [] "__getProperty" ++ [0] } rfl).2
      (Info.mk "genericRPC" .generic) "__getProperty" [0]
      (Info.mk "__getProperty" (.control .getProperty)) rfl rfl rfl rfl rfl rfl (by decide)⟩

/-- C2: for every header whose fields are in range, decoding the 64-bit word produced by
encoding it yields the header again, field by field. -/
theorem header_decode_encode (h : Header) (hsize : h.size < 2 ^ 32)
    (hcounter : h.counter < 2 ^ 22) (hrpcid : h.rpcid < 2 ^ 7) (hdbg : h.hasDbg < 2)
    (hreply : h.isReply < 2) (hsuccess : h.success < 2) :
    (Header.ofAll h.all_).size = h.size ∧ (Header.ofAll h.all_).counter = h.counter ∧
    (Header.ofAll h.all_).rpcid = h.rpcid ∧ (Header.ofAll h.all_).hasDbg = h.hasDbg ∧
    (Header.ofAll h.all_).isReply = h.isReply ∧ (Header.ofAll h.all_).success = h.success := by
  rw [Header.ofAll_all_ h ⟨hsize, hcounter, hrpcid, hdbg, hreply, hsuccess⟩]
  exact ⟨rfl, rfl, rfl, rfl, rfl, rfl⟩

/-- Witness of C2: the header with the largest size, counter and rpcid. -/
theorem header_decode_encode_witness :
    (Header.ofAll (Header.all_ ⟨4294967295, 4194303, 127, 1, 0, 1⟩)).size = 4294967295 ∧
    (Header.ofAll (Header.all_ ⟨4294967295, 4194303, 127, 1, 0, 1⟩)).counter = 4194303 ∧
    (Header.ofAll (Header.all_ ⟨4294967295, 4194303, 127, 1, 0, 1⟩)).rpcid = 127 ∧
    (Header.ofAll (Header.all_ ⟨4294967295, 4194303, 127, 1, 0, 1⟩)).hasDbg = 1 ∧
    (Header.ofAll (Header.all_ ⟨4294967295, 4194303, 127, 1, 0, 1⟩)).isReply = 0 ∧
    (Header.ofAll (Header.all_ ⟨4294967295, 4194303, 127, 1, 0, 1⟩)).success = 1 :=
  header_decode_encode ⟨4294967295, 4194303, 127, 1, 0, 1⟩ (by decide) (by decide) (by decide)
    (by decide) (by decide) (by decide)

/-- C3: in a table built with `registerGenericRPC`, a generic call (`rpcid == 0`) whose name is
found neither among the ordinary nor among the control procedures makes the generic dispatcher
send exactly one buffer, an error reply with the text "Generic RPC not found", `success == 0`,
`isReply == 1` and the counter of the request; the target object and the connection state are
untouched and the transport is not closed. -/
theorem generic_not_found_reply (env : Collaborators OD) (t : TableImpl Obj) (hb : Built t)
    (hdr : Header) (hr : hdr.InRange) (hid : hdr.rpcid = 0) (w : World Obj OD) (name : String)
    (inp : Stream) (hname : readString w.inp = some (name, inp))
    (h1 : t.getByName name = none) (h2 : t.getControlByName name = none) :
    ∃ msg r, t.processCall env hdr w = .ok { w with inp := inp, trp := w.trp.send msg } ∧
      (w.trp.send msg).sent = w.trp.sent ++ [msg] ∧ (w.trp.send msg).closed = w.trp.closed ∧
      readHeader msg = some (r, writeString [] "Generic RPC not found") ∧
      r.success = 0 ∧ r.isReply = 1 ∧ r.counter = hdr.counter := by
  obtain ⟨msg, r, hsend, hread, hc, _, hrep, hs⟩ :=
    Send.error_sends w.trp hdr hr "Generic RPC not found"
  have hfound : t.lookup name = none := by
    unfold TableImpl.lookup
    rw [h1, h2]
  refine ⟨msg, r, ?_, rfl, rfl, hread, hs, hrep, hc⟩
  rw [TableImpl.processCall_eq env t hdr w _ (hb.generic_entry hdr hid),
    TableImpl.dispatcher_generic_not_found env t _ _ hdr w name inp rfl hid hname hfound, hsend]

/-- Witness of C3: the generic call of the name `sub`, which the example table does not hold. -/
theorem generic_not_found_reply_witness :
    ∃ msg r, Example.table.processCall Example.env { counter := 9 }
        { Example.world with inp := writeString [] "sub" ++ [0] } =
        .ok { Example.world with inp := [0], trp := Example.world.trp.send msg } ∧
      (Example.world.trp.send msg).sent = Example.world.trp.sent ++ [msg] ∧
      (Example.world.trp.send msg).closed = Example.world.trp.closed ∧
      readHeader msg = some (r, writeString [] "Generic RPC not found") ∧
      r.success = 0 ∧ r.isReply = 1 ∧ r.counter = 9 :=
  generic_not_found_reply Example.env Example.table
    (Built.rpc 2 "boom" Example.boom
      (Built.rpc 1 "add" Example.add (Built.generic "Calc" rfl) rfl) rfl)
    { counter := 9 } (by decide) rfl { Example.world with inp := writeString [] "sub" ++ [0] }
    "sub" [0] rfl rfl rfl

/-- C4: with exception catching enabled, when the invocation of a synchronous procedure fails
with message `m`, `Dispatcher<false, R>::impl` returns normally after sending exactly one
buffer, an error reply with `success == 0` and payload `m`; the transport is not closed and the
connection state (`authPassed`, pending calls) and the stream are as before, so the next call
meets the same dispatch state. -/
theorem sync_failure_reply (env : Collaborators OD) (f : Proc Obj) (params : f.P)
    (w : World Obj OD) (hdr : Header) (hr : hdr.InRange) (hcatch : env.catchExceptions = true)
    (obj : Obj) (m : String) (hcall : f.callMethod w.obj params = (obj, .error m)) :
    ∃ msg r, Dispatcher.implSync env f params w hdr =
        .ok { w with obj := obj, trp := w.trp.send msg } ∧
      (w.trp.send msg).sent = w.trp.sent ++ [msg] ∧ (w.trp.send msg).closed = w.trp.closed ∧
      readHeader msg = some (r, writeString [] m) ∧
      r.success = 0 ∧ r.isReply = 1 ∧ r.counter = hdr.counter ∧ r.rpcid = hdr.rpcid := by
  obtain ⟨msg, r, hsend, hread, hc, hid, hrep, hs⟩ := Send.error_sends w.trp hdr hr m
  refine ⟨msg, r, ?_, rfl, rfl, hread, hs, hrep, hc, hid⟩
  unfold Dispatcher.implSync Caller.doCall
  simp [hcall, hcatch, hsend]

/-- Witness of C4: the procedure `boom`, which throws "boom". -/
theorem sync_failure_reply_witness :
    ∃ msg r, Dispatcher.implSync Example.env Example.boom () Example.world { rpcid := 2 } =
        .ok { Example.world with obj := 0, trp := Example.world.trp.send msg } ∧
      (Example.world.trp.send msg).sent = Example.world.trp.sent ++ [msg] ∧
      (Example.world.trp.send msg).closed = Example.world.trp.closed ∧
      readHeader msg = some (r, writeString [] "boom") ∧
      r.success = 0 ∧ r.isReply = 1 ∧ r.counter = 0 ∧ r.rpcid = 2 :=
  sync_failure_reply Example.env Example.boom () Example.world { rpcid := 2 } (by decide) rfl
    0 "boom" rfl

/-- C5: for every request header, the reply that `Send::result` sends carries a header with the
request's counter and rpcid, `isReply == 1` and `success == 1`; the reply that `Send::error`
sends carries the request's counter and rpcid, `isReply == 1` and `success == 0`. -/
theorem reply_header_fields (trp : Transport) (h : Header) (hr : h.InRange) (o : Stream)
    (what : String) :
    (∃ msg r rest, Send.result trp h o = trp.send msg ∧ readHeader msg = some (r, rest) ∧
      r.counter = h.counter ∧ r.rpcid = h.rpcid ∧ r.isReply = 1 ∧ r.success = 1) ∧
    (∃ msg r rest, Send.error trp h what = trp.send msg ∧ readHeader msg = some (r, rest) ∧
      r.counter = h.counter ∧ r.rpcid = h.rpcid ∧ r.isReply = 1 ∧ r.success = 0) := by
  obtain ⟨m1, r1, e1, d1, p1⟩ := Send.result_sends trp h hr o
  obtain ⟨m2, r2, e2, d2, p2⟩ := Send.error_sends trp h hr what
  exact ⟨⟨m1, r1, _, e1, d1, p1⟩, ⟨m2, r2, _, e2, d2, p2⟩⟩

/-- Witness of C5: the replies to a request with counter 77 and rpcid 3. -/
theorem reply_header_fields_witness :
    (∃ msg r rest, Send.result {} { counter := 77, rpcid := 3 } (writeHeader [] {} ++ [1, 2]) =
        Transport.send {} msg ∧ readHeader msg = some (r, rest) ∧
      r.counter = 77 ∧ r.rpcid = 3 ∧ r.isReply = 1 ∧ r.success = 1) ∧
    (∃ msg r rest, Send.error {} { counter := 77, rpcid := 3 } "no" = Transport.send {} msg ∧
      readHeader msg = some (r, rest) ∧
      r.counter = 77 ∧ r.rpcid = 3 ∧ r.isReply = 1 ∧ r.success = 0) :=
  reply_header_fields {} { counter := 77, rpcid := 3 } (by decide) (writeHeader [] {} ++ [1, 2])
    "no"

/-- C6: `registerRPC(id, name, f)` succeeds exactly when `id` is the current number of ordinary
procedures and no ordinary and no control entry carries `name`; `registerControlRPC(name, f)`
succeeds exactly when no ordinary and no control entry carries `name`. A registration that
fails stops at its `assert` with the table as it was. -/
theorem registration_succeeds_iff (t : TableImpl Obj) (rpcid : Nat) (name : String)
    (f : Proc Obj) (c : ControlFn) :
    ((∃ t1, t.registerRPC rpcid name f = .ok t1) ↔
      rpcid = t.m_rpcs.length ∧ (∀ info ∈ t.m_rpcs, info.name ≠ name) ∧
        ∀ info ∈ t.m_controlrpcs, info.name ≠ name) ∧
    ((∃ t1, t.registerControlRPC name c = .ok t1) ↔
      (∀ info ∈ t.m_rpcs, info.name ≠ name) ∧ ∀ info ∈ t.m_controlrpcs, info.name ≠ name) ∧
    (∀ t1, t.registerRPC rpcid name f = .error t1 → t1 = t) ∧
    (∀ t1, t.registerControlRPC name c = .error t1 → t1 = t) := by
  refine ⟨?_, ?_, fun t1 h => TableImpl.registerRPC_error t t1 rpcid name f h,
    fun t1 h => TableImpl.registerControlRPC_error t t1 name c h⟩
  · rw [← TableImpl.getByName_eq_none, ← TableImpl.getControlByName_eq_none]
    constructor
    · rintro ⟨t1, h⟩
      obtain ⟨h0, h1, h2, _⟩ := (TableImpl.registerRPC_ok t t1 rpcid name f).1 h
      exact ⟨h0, h1, h2⟩
    · rintro ⟨h0, h1, h2⟩
      exact ⟨_, (TableImpl.registerRPC_ok t _ rpcid name f).2 ⟨h0, h1, h2, rfl⟩⟩
  · rw [← TableImpl.getByName_eq_none, ← TableImpl.getControlByName_eq_none]
    constructor
    · rintro ⟨t1, h⟩
      obtain ⟨h1, h2, _⟩ := (TableImpl.registerControlRPC_ok t t1 name c).1 h
      exact ⟨h1, h2⟩
    · rintro ⟨h1, h2⟩
      exact ⟨_, (TableImpl.registerControlRPC_ok t _ name c).2 ⟨h1, h2, rfl⟩⟩

/-- C7: after `registerGenericRPC` on an empty table and successful calls
`registerRPC(1, n1, f1)`, ..., `registerRPC(k, nk, fk)`, the ordinary collection has `k + 1`
entries, entry 0 is the generic entry, entry `i` carries `ni` and the dispatcher built from
`fi`, the control collection is `__auth`, `__getProperty`, `__setProperty` in that order, and
`isValid(id)` holds exactly for `id <= k`. -/
theorem registration_order (m_name : String) (t1 t : TableImpl Obj)
    (procs : List (String × Proc Obj))
    (hg : TableImpl.registerGenericRPC { m_name := m_name } = .ok t1)
    (hall : t1.registerAll 1 procs = .ok t) :
    t.m_rpcs.length = procs.length + 1 ∧
    t.m_rpcs.get? 0 = some (Info.mk "genericRPC" .generic) ∧
    (∀ i p, procs.get? i = some p → t.m_rpcs.get? (i + 1) = some (Info.mk p.1 (.rpc p.2))) ∧
    t.m_controlrpcs = [Info.mk "__auth" (.control .auth),
      Info.mk "__getProperty" (.control .getProperty),
      Info.mk "__setProperty" (.control .setProperty)] ∧
    ∀ rpcid, t.isValid rpcid = true ↔ rpcid ≤ procs.length := by
  rw [TableImpl.registerGenericRPC_empty] at hg
  cases hg
  obtain ⟨h1, h2⟩ := TableImpl.registerAll_ok procs _ t 1 hall
  simp only [List.singleton_append] at h1
  refine ⟨by simp [h1], by simp [h1], ?_, h2, ?_⟩
  · intro i p hp
    rw [h1, List.get?_cons_succ]
    simp only [List.get?_eq_getElem?] at hp ⊢
    rw [List.getElem?_map, hp]
    rfl
  · intro rpcid
    simp [TableImpl.isValid, h1, Nat.lt_succ_iff]

/-- Witness of C7: the example table, built from `add` and `boom`. -/
theorem registration_order_witness :
    Example.table.m_rpcs.length = [("add", Example.add), ("boom", Example.boom)].length + 1 ∧
    Example.table.m_rpcs.get? 0 = some (Info.mk "genericRPC" .generic) ∧
    (∀ i p, [("add", Example.add), ("boom", Example.boom)].get? i = some p →
      Example.table.m_rpcs.get? (i + 1) = some (Info.mk p.1 (.rpc p.2))) ∧
    Example.table.m_controlrpcs = [Info.mk "__auth" (.control .auth),
      Info.mk "__getProperty" (.control .getProperty),
      Info.mk "__setProperty" (.control .setProperty)] ∧
    ∀ rpcid, Example.table.isValid rpcid = true ↔
      rpcid ≤ [("add", Example.add), ("boom", Example.boom)].length :=
  registration_order "Calc" _ Example.table [("add", Example.add), ("boom", Example.boom)]
    rfl rfl

/-- C8 (the code at the failing input): `registerControlRPC("genericRPC", &InProcessorData::auth)`
on the empty table succeeds, `registerGenericRPC` then succeeds as well, since it only asserts
that there is no ordinary entry, and the resulting table carries the name `genericRPC` both in
the ordinary and in the control collection. -/
theorem generic_after_control_duplicates_name :
    ∃ t1 t2 : TableImpl Nat,
      Example.empty.registerControlRPC "genericRPC" .auth = .ok t1 ∧
      t1.registerGenericRPC = .ok t2 ∧ Reachable t2 ∧
      t2.m_rpcs.map (fun info => info.name) = ["genericRPC"] ∧
      t2.m_controlrpcs.map (fun info => info.name) =
        ["genericRPC", "__auth", "__getProperty", "__setProperty"] ∧
      ¬ t2.names.Nodup :=
  ⟨_, _, rfl, rfl,
    Reachable.generic
      (Reachable.control "genericRPC" .auth (Reachable.empty "Calc") rfl) rfl,
    rfl, rfl, by decide⟩

/-- C9: in a table built with `registerGenericRPC`, dispatching `__auth(token)` passes the
authentication gate whatever `authPassed` was, stores the result of `checkAuthToken(token)`
into `authPassed`, sends exactly one buffer, a success reply whose payload is that boolean as
an `Any`, and does not close the transport. -/
theorem auth_sets_authPassed (env : Collaborators OD) (t : TableImpl Obj) (hb : Built t)
    (hdr : Header) (hr : hdr.InRange) (hid : hdr.rpcid = 0) (w : World Obj OD)
    (inp1 inp2 : Stream) (token : String) (hname : readString w.inp = some ("__auth", inp1))
    (hparams : env.readAnys inp1 = some ([Any.string token], inp2)) :
    ∃ msg r, t.processCall env hdr w =
        .ok { w with inp := inp2,
                     out := { w.out with authPassed := env.checkAuthToken w.out.objData token },
                     trp := w.trp.send msg } ∧
      (w.trp.send msg).sent = w.trp.sent ++ [msg] ∧ (w.trp.send msg).closed = w.trp.closed ∧
      readHeader msg =
        some (r, env.writeAny (Any.bool (env.checkAuthToken w.out.objData token))) ∧
      r.success = 1 ∧ r.isReply = 1 ∧ r.counter = hdr.counter := by
  obtain ⟨msg, r, hsend, hread, hc, _, hrep, hs⟩ :=
    Send.result_sends w.trp hdr hr
      (writeHeader [] hdr ++ env.writeAny (Any.bool (env.checkAuthToken w.out.objData token)))
  rw [drop_header_append] at hread
  have hfound : t.lookup "__auth" = some (Info.mk "__auth" (.control .auth)) := by
    unfold TableImpl.lookup
    rw [hb.standard.2.1, hb.standard.2.2]
  refine ⟨msg, r, ?_, rfl, rfl, hread, hs, hrep, hc⟩
  rw [TableImpl.processCall_eq env t hdr w _ (hb.generic_entry hdr hid),
    TableImpl.dispatcher_generic_found env t _ _ _ hdr w "__auth" inp1 rfl hid hname hfound,
    TableImpl.dispatcher_control env t _ _ .auth hdr _ rfl]
  unfold TableImpl.controlDispatcher
  simp [Header.isGenericRPC, hid, hparams, ControlFn.toTuple, ControlFn.callMethod,
    InProcessorData.auth, hsend]

/-- Witness of C9: a wrong token on an authenticated connection. -/
theorem auth_sets_authPassed_witness :
    ∃ msg r, Example.table.processCall Example.env {}
        { Example.world with
            inp := writeString [] "__auth" ++ [1] ++ writeString [] "wrong",
            out := { objData := "secret", authPassed := true } } =
        .ok { Example.world with
                inp := [],
                out := { objData := "secret", authPassed := false },
                trp := Example.world.trp.send msg } ∧
      (Example.world.trp.send msg).sent = Example.world.trp.sent ++ [msg] ∧
      (Example.world.trp.send msg).closed = Example.world.trp.closed ∧
      readHeader msg = some (r, Example.env.writeAny (Any.bool false)) ∧
      r.success = 1 ∧ r.isReply = 1 ∧ r.counter = 0 :=
  auth_sets_authPassed Example.env Example.table
    (Built.rpc 2 "boom" Example.boom
      (Built.rpc 1 "add" Example.add (Built.generic "Calc" rfl) rfl) rfl)
    {} (by decide) rfl
    { Example.world with
        inp := writeString [] "__auth" ++ [1] ++ writeString [] "wrong",
        out := { objData := "secret", authPassed := true } }
    ([1] ++ writeString [] "wrong") [] "wrong" (by decide) (by decide)

/-- C10 (counterexample): on the fresh, unauthenticated connection and the table holding `add`,
the generic call naming `add` closes the transport without sending, while the same call naming
`sub`, which is not registered, leaves the transport open and sends a reply. -/
theorem unauthenticated_probe_distinguishes :
    ∃ w1 w2 : World Nat String,
      Example.world.out.authPassed = false ∧
      Example.table.processCall Example.env {}
        { Example.world with inp := writeString [] "add" ++ [0] } = .ok w1 ∧
      Example.table.processCall Example.env {}
        { Example.world with inp := writeString [] "sub" ++ [0] } = .ok w2 ∧
      w1.trp = { sent := [], closed := true } ∧
      w2.trp.closed = false ∧ w2.trp.sent.length = 1 ∧ w1.trp ≠ w2.trp :=
  ⟨_, _, rfl, rfl, rfl, rfl, rfl, rfl, by decide⟩

/-- C10 (amended): on a connection whose `authPassed` is false, two generic calls with the same
header and parameters whose names (neither `__auth`) are both names of registered procedures,
or both names of no entry, have the same outcome. -/
theorem unauthenticated_outcome_by_registration (env : Collaborators OD) (t : TableImpl Obj)
    (hb : Built t) (hdr : Header) (hid : hdr.rpcid = 0) (w : World Obj OD)
    (hauth : w.out.authPassed = false) (inp1 inp2 rest : Stream) (n1 n2 : String)
    (hn1 : readString inp1 = some (n1, rest)) (hn2 : readString inp2 = some (n2, rest))
    (h1 : n1 ≠ "__auth") (h2 : n2 ≠ "__auth")
    (hreg : (∃ i1 i2, t.lookup n1 = some i1 ∧ i1.isProcedure = true ∧
              t.lookup n2 = some i2 ∧ i2.isProcedure = true) ∨
            (t.lookup n1 = none ∧ t.lookup n2 = none)) :
    t.processCall env hdr { w with inp := inp1 } = t.processCall env hdr { w with inp := inp2 } ∧
    ∃ trp, t.processCall env hdr { w with inp := inp1 } = .ok { w with inp := rest, trp := trp } ∧
      ((∃ i1, t.lookup n1 = some i1) → trp = w.trp.close) ∧
      (t.lookup n1 = none → trp = Send.error w.trp hdr "Generic RPC not found") := by
  have hg := hb.generic_entry hdr hid
  rw [TableImpl.processCall_eq env t hdr { w with inp := inp1 } _ hg,
    TableImpl.processCall_eq env t hdr { w with inp := inp2 } _ hg]
  rcases hreg with ⟨i1, i2, hl1, hp1, hl2, hp2⟩ | ⟨hl1, hl2⟩
  · have e1 := TableImpl.dispatcher_generic_found env t (List.length inp1) (Info.mk "genericRPC" .generic) i1 hdr
      { w with inp := inp1 } n1 rest rfl hid hn1 hl1
    have e2 := TableImpl.dispatcher_generic_found env t (List.length inp2) (Info.mk "genericRPC" .generic) i2 hdr
      { w with inp := inp2 } n2 rest rfl hid hn2 hl2
    have c1 := TableImpl.dispatcher_procedure_unauthenticated env t (List.length inp1) i1 hdr
      { w with inp := rest } hp1 (Or.inl hid) hauth
      (by rw [TableImpl.lookup_name t n1 i1 hl1]; exact h1)
    have c2 := TableImpl.dispatcher_procedure_unauthenticated env t (List.length inp2) i2 hdr
      { w with inp := rest } hp2 (Or.inl hid) hauth
      (by rw [TableImpl.lookup_name t n2 i2 hl2]; exact h2)
    refine ⟨?_, w.trp.close, ?_, fun _ => rfl, fun hnone => ?_⟩
    · exact (e1.trans c1).trans (e2.trans c2).symm
    · exact e1.trans c1
    · rw [hl1] at hnone
      cases hnone
  · have e1 := TableImpl.dispatcher_generic_not_found env t (List.length inp1 + 1) (Info.mk "genericRPC" .generic) hdr
      { w with inp := inp1 } n1 rest rfl hid hn1 hl1
    have e2 := TableImpl.dispatcher_generic_not_found env t (List.length inp2 + 1) (Info.mk "genericRPC" .generic) hdr
      { w with inp := inp2 } n2 rest rfl hid hn2 hl2
    refine ⟨e1.trans e2.symm, _, e1, fun hsome => ?_, fun _ => rfl⟩
    obtain ⟨i, hi⟩ := hsome
    rw [hl1] at hi
    cases hi

/-- Witness of C10 (amended): the names `add` and `boom`, both registered. -/
theorem unauthenticated_outcome_by_registration_witness :
    Example.table.processCall Example.env {}
        { Example.world with inp := writeString [] "add" ++ [0] } =
      Example.table.processCall Example.env {}
        { Example.world with inp := writeString [] "boom" ++ [0] } ∧
    ∃ trp, Example.table.processCall Example.env {}
        { Example.world with inp := writeString [] "add" ++ [0] } =
        .ok { Example.world with inp := [0], trp := trp } ∧
      ((∃ i1, Example.table.lookup "add" = some i1) → trp = Example.world.trp.close) ∧
      (Example.table.lookup "add" = none →
        trp = Send.error Example.world.trp {} "Generic RPC not found") :=
  unauthenticated_outcome_by_registration Example.env Example.table
    (Built.rpc 2 "boom" Example.boom
      (Built.rpc 1 "add" Example.add (Built.generic "Calc" rfl) rfl) rfl)
    {} rfl Example.world rfl (writeString [] "add" ++ [0]) (writeString [] "boom" ++ [0]) [0]
    "add" "boom" (by decide) (by decide) (by decide) (by decide)
    (Or.inl ⟨Info.mk "add" (.rpc Example.add), Info.mk "boom" (.rpc Example.boom),
      rfl, rfl, rfl, rfl⟩)

end Claims

/-! ## Asynchronous calls, replies and keys -/

section InvalidParameters

variable {Obj OD : Type}

theorem TableImpl.rpcDispatcher_invalid_parameters (env : Collaborators OD) (f : Proc Obj)
    (hdr : Header) (w : World Obj OD) (a : List Any) (inp : Stream) (hid : hdr.rpcid = 0)
    (hauth : w.out.authPassed = true) (hread : env.readAnys w.inp = some (a, inp))
    (htuple : f.toTuple a = none) :
    TableImpl.rpcDispatcher env f hdr w =
      .ok { w with inp := inp,
                   trp := Send.error w.trp hdr "Invalid parameters for generic RPC" } := by
  unfold TableImpl.rpcDispatcher
  simp [hauth, Header.isGenericRPC, hid, hread, htuple]

theorem TableImpl.controlDispatcher_invalid_parameters (env : Collaborators OD) (name : String)
    (f : ControlFn) (hdr : Header) (w : World Obj OD) (a : List Any) (inp : Stream)
    (hid : hdr.rpcid = 0) (hauth : w.out.authPassed = true ∨ name = "__auth")
    (hread : env.readAnys w.inp = some (a, inp)) (htuple : f.toTuple a = none) :
    TableImpl.controlDispatcher env name f hdr w =
      .ok { w with inp := inp,
                   trp := Send.error w.trp hdr "Invalid parameters for generic RPC" } := by
  unfold TableImpl.controlDispatcher
  rcases hauth with hauth | hauth <;>
    simp [hauth, Header.isGenericRPC, hid, hread, htuple]

/-- C11: a generic call that passes the authentication gate and whose list of `Any` does not
convert to the parameter tuple of the procedure it names, ordinary or control, gets exactly one
error reply with the text "Invalid parameters for generic RPC" and `success == 0`; the procedure
is not invoked, the transport is not closed, and `authPassed` and the pending state are as
before. -/
theorem invalid_parameters_reply (env : Collaborators OD) (t : TableImpl Obj) (hdr : Header)
    (hr : hdr.InRange) (hid : hdr.rpcid = 0) (w : World Obj OD) (g : Info Obj)
    (hg : t.m_rpcs.get? hdr.rpcid = some g) (hgen : g.dispatcher = .generic)
    (name : String) (inp1 inp2 : Stream) (a : List Any)
    (hname : readString w.inp = some (name, inp1))
    (hread : env.readAnys inp1 = some (a, inp2)) (target : Info Obj)
    (hfound : t.lookup name = some target)
    (hcase : (∃ f, target.dispatcher = .rpc f ∧ w.out.authPassed = true ∧ f.toTuple a = none) ∨
      (∃ c, target.dispatcher = .control c ∧ (w.out.authPassed = true ∨ name = "__auth") ∧
        c.toTuple a = none)) :
    ∃ msg r, t.processCall env hdr w = .ok { w with inp := inp2, trp := w.trp.send msg } ∧
      (w.trp.send msg).sent = w.trp.sent ++ [msg] ∧ (w.trp.send msg).closed = w.trp.closed ∧
      readHeader msg = some (r, writeString [] "Invalid parameters for generic RPC") ∧
      r.success = 0 ∧ r.isReply = 1 ∧ r.counter = hdr.counter := by
  obtain ⟨msg, r, hsend, hdecode, hc, _, hrep, hs⟩ :=
    Send.error_sends w.trp hdr hr "Invalid parameters for generic RPC"
  refine ⟨msg, r, ?_, rfl, rfl, hdecode, hs, hrep, hc⟩
  rw [TableImpl.processCall_eq env t hdr w g hg,
    TableImpl.dispatcher_generic_found env t _ g target hdr w name inp1 hgen hid hname hfound]
  rcases hcase with ⟨f, hf, hauth, htuple⟩ | ⟨c, hcd, hauth, htuple⟩
  · rw [TableImpl.dispatcher_rpc env t _ target f hdr _ hf,
      TableImpl.rpcDispatcher_invalid_parameters env f hdr { w with inp := inp1 } a inp2 hid
        hauth hread htuple,
      ← hsend]
  · rw [TableImpl.dispatcher_control env t _ target c hdr _ hcd,
      TableImpl.controlDispatcher_invalid_parameters env target.name c hdr
        { w with inp := inp1 } a inp2 hid
        (by rw [TableImpl.lookup_name t name target hfound]; exact hauth) hread htuple,
      ← hsend]

/-- Witness of C11: `__auth` called without a token on the fresh connection. -/
theorem invalid_parameters_reply_witness :
    ∃ msg r, Example.table.processCall Example.env {}
        { Example.world with inp := writeString [] "__auth" ++ [0] } =
        .ok { Example.world with inp := [], trp := Example.world.trp.send msg } ∧
      (Example.world.trp.send msg).sent = Example.world.trp.sent ++ [msg] ∧
      (Example.world.trp.send msg).closed = Example.world.trp.closed ∧
      readHeader msg = some (r, writeString [] "Invalid parameters for generic RPC") ∧
      r.success = 0 ∧ r.isReply = 1 ∧ r.counter = 0 :=
  invalid_parameters_reply Example.env Example.table {} (by decide) rfl
    { Example.world with inp := writeString [] "__auth" ++ [0] }
    (Info.mk "genericRPC" .generic) rfl rfl "__auth" [0] [] [] (by decide) (by decide)
    (Info.mk "__auth" (.control .auth)) rfl
    (Or.inr ⟨.auth, rfl, Or.inr rfl, rfl⟩)

end InvalidParameters

section PendingLemmas

variable {Obj OD : Type}

theorem PendingFutures.retire_of_found (p : PendingFutures) (c : Nat) (it : Nat × PendingFuture)
    (h : p.futures.find? (fun e => e.1 == c) = some it) :
    p.retire c = { p with done := [it.2], futures := p.futures.filter (fun e => e.1 != c) } := by
  unfold PendingFutures.retire
  simp [h]

theorem PendingFutures.retire_of_not_found (p : PendingFutures) (c : Nat)
    (h : p.futures.find? (fun e => e.1 == c) = none) :
    p.retire c = { p with done := [] } := by
  unfold PendingFutures.retire
  simp [h]

theorem PendingFutures.retire_counter (p : PendingFutures) (c : Nat) :
    (p.retire c).counter = p.counter := by
  cases h : p.futures.find? (fun e => e.1 == c) with
  | none => rw [PendingFutures.retire_of_not_found p c h]
  | some it => rw [PendingFutures.retire_of_found p c it h]

theorem PendingFutures.retire_futures (p : PendingFutures) (c : Nat) :
    (p.retire c).futures = p.futures.filter (fun e => e.1 != c) := by
  cases h : p.futures.find? (fun e => e.1 == c) with
  | none =>
    rw [PendingFutures.retire_of_not_found p c h]
    symm
    rw [List.filter_eq_self]
    intro e he
    have := List.find?_eq_none.1 h e he
    simpa using this
  | some it => rw [PendingFutures.retire_of_found p c it h]

theorem PendingFutures.mem_retire (p : PendingFutures) (c : Nat) (e : Nat × PendingFuture) :
    e ∈ (p.retire c).futures ↔ e ∈ p.futures ∧ e.1 ≠ c := by
  rw [PendingFutures.retire_futures, List.mem_filter]
  simp

theorem Dispatcher.processReady_out (env : Collaborators OD) (f : Proc Obj) (w : World Obj OD)
    (c : Nat) (hdr : Header) (ft : Except String f.R) :
    (Dispatcher.processReady env f w c hdr ft).out =
      { w.out with pending := w.out.pending.retire c } := rfl

/-- What a successful `Dispatcher<true, R>::impl` changes: the object, the pending counter and
the pending map. -/
theorem Dispatcher.implAsync_ok (f : Proc Obj) (params : f.P) (w w1 : World Obj OD)
    (hdr : Header) (h : Dispatcher.implAsync f params w hdr = .ok w1) :
    w1.trp = w.trp ∧ w1.inp = w.inp ∧ w1.out.authPassed = w.out.authPassed ∧
      w1.out.pending.done = w.out.pending.done ∧
      w1.out.pending.counter = (w.out.pending.counter + 1) % 2 ^ 32 ∧
      w1.out.pending.futures =
        PendingFutures.insert w.out.pending.futures w.out.pending.counter
          { counter := w.out.pending.counter, hdr := hdr } := by
  unfold Dispatcher.implAsync at h
  rcases hc : f.callMethod w.obj params with ⟨obj, what | r⟩
  · rw [hc] at h
    cases h
  · rw [hc] at h
    simp only [Except.ok.injEq] at h
    subst h
    exact ⟨rfl, rfl, rfl, rfl, rfl, rfl⟩

theorem InProcessorData.drain_futures_nil (env : Collaborators OD)
    (completion : PendingFuture → Completion Obj) (tmp : List (Nat × PendingFuture)) :
    ∀ w : World Obj OD, w.out.pending.futures = [] →
      (InProcessorData.drain env completion tmp w).out.pending.futures = [] := by
  induction tmp with
  | nil => intro w h; exact h
  | cons e tmp ih =>
    intro w h
    unfold InProcessorData.drain
    apply ih
    rw [Dispatcher.processReady_out]
    show (w.out.pending.retire e.2.counter).futures = []
    rw [PendingFutures.retire_futures, h]
    rfl

end PendingLemmas

section Completion

variable {Obj OD : Type}

/-- C13: whatever the connection state and however the pending calls complete during the drain,
`~InProcessorData` passes its assertion and ends with the pending map and `done` empty. -/
theorem teardown_leaves_nothing_pending (env : Collaborators OD)
    (completion : PendingFuture → Completion Obj) (w : World Obj OD) :
    ∃ w1, InProcessorData.destroy env completion w = .ok w1 ∧
      w1.out.pending.futures = [] ∧ w1.out.pending.done = [] := by
  have h := InProcessorData.drain_futures_nil env completion w.out.pending.futures
    { w with out := { w.out with pending := { w.out.pending with futures := [] } } } rfl
  unfold InProcessorData.destroy
  simp only [h, List.length_nil, beq_self_eq_true, if_true]
  exact ⟨_, rfl, rfl, rfl⟩

end Completion

section PendingLemmas2

variable {Obj OD : Type}

end PendingLemmas2

section CompletionOrder

variable {Obj OD : Type}

end CompletionOrder

section AbsentCompletion

variable {Obj OD : Type}

end AbsentCompletion

section KeyAndSize

variable {Obj OD : Type}

theorem Header.key_eq (h : Header) (hr : h.InRange) : h.key = h.counter * 128 + h.rpcid := by
  obtain ⟨_, hc, hi, _, _, _⟩ := hr
  simp only [Header.kCounterBits, Header.kRPCIdBits] at hc hi
  have hor : (h.counter <<< 7) ||| h.rpcid = 2 ^ 7 * h.counter + h.rpcid := by
    rw [Nat.shiftLeft_eq, Nat.mul_comm]
    exact (Nat.mul_add_lt_is_or hi h.counter).symm
  unfold Header.key
  simp only [Header.kRPCIdBits]
  rw [hor]
  norm_num at hc hi ⊢
  omega

/-- C18: for every header, `key()` is `counter * 128 + rpcid`, computed without truncation
(it is below `2 ^ 29`); `counter` is `key() >> 7` and `rpcid` is `key() & 127`, so two headers
have the same key exactly when they have the same counter and the same rpcid. -/
theorem key_is_counter_and_rpcid (h : Header) (hr : h.InRange) :
    h.key = h.counter * 128 + h.rpcid ∧ h.key < 2 ^ 29 ∧ h.key >>> 7 = h.counter ∧
    h.key &&& 127 = h.rpcid ∧
    ∀ g : Header, g.InRange → (h.key = g.key ↔ h.counter = g.counter ∧ h.rpcid = g.rpcid) := by
  have hk := Header.key_eq h hr
  obtain ⟨_, hc, hi, _, _, _⟩ := hr
  simp only [Header.kCounterBits, Header.kRPCIdBits] at hc hi
  norm_num at hc hi
  refine ⟨hk, ?_, ?_, ?_, ?_⟩
  · rw [hk]
    norm_num
    omega
  · rw [hk, Nat.shiftRight_eq_div_pow]
    norm_num
    omega
  · have : (127 : Nat) = 2 ^ 7 - 1 := by norm_num
    rw [hk, this, Nat.and_pow_two_sub_one_eq_mod]
    norm_num
    omega
  · intro g hg
    rw [hk, Header.key_eq g hg]
    obtain ⟨_, gc, gi, _, _, _⟩ := hg
    simp only [Header.kCounterBits, Header.kRPCIdBits] at gc gi
    norm_num at gc gi
    constructor
    · intro he
      constructor <;> omega
    · rintro ⟨e1, e2⟩
      rw [e1, e2]

/-- Witness of C18: the header with the largest counter and rpcid. -/
theorem key_is_counter_and_rpcid_witness :
    Header.key { counter := 4194303, rpcid := 127 } = 4194303 * 128 + 127 ∧
    Header.key { counter := 4194303, rpcid := 127 } < 2 ^ 29 ∧
    Header.key { counter := 4194303, rpcid := 127 } >>> 7 = 4194303 ∧
    Header.key { counter := 4194303, rpcid := 127 } &&& 127 = 127 ∧
    ∀ g : Header, g.InRange →
      (Header.key { counter := 4194303, rpcid := 127 } = g.key ↔
        4194303 = g.counter ∧ 127 = g.rpcid) :=
  key_is_counter_and_rpcid { counter := 4194303, rpcid := 127 } (by decide)

/-- C16 (counterexample): in the error reply with the text "no" to the empty request header the
payload has 6 bytes and the `size` field is 14. -/
theorem reply_size_counts_header :
    ∃ msg r payload, Send.error {} {} "no" = Transport.send {} msg ∧
      readHeader msg = some (r, payload) ∧ payload = writeString [] "no" ∧
      payload.length = 6 ∧ r.size = 14 :=
  ⟨_, _, _, Send.error_eq {} {} "no",
    readHeader_patchHeader _ _ (replyHeader_inRange {} (by decide) 0 _ (by decide)),
    by decide, by decide, by decide⟩

/-- C16 (amended): in every reply built by `Send::result` or `Send::error` the `size` field is
the byte length of the whole buffer, the eight header bytes and the payload after them, as a
32-bit value. -/
theorem reply_size_is_buffer_length (trp : Transport) (h : Header) (hr : h.InRange)
    (o : Stream) (ho : 8 ≤ o.length) (what : String) :
    (∃ msg r payload, Send.result trp h o = trp.send msg ∧ readHeader msg = some (r, payload) ∧
      payload = o.drop 8 ∧ msg.length = 8 + payload.length ∧
      r.size = (8 + payload.length) % 2 ^ 32) ∧
    (∃ msg r payload, Send.error trp h what = trp.send msg ∧
      readHeader msg = some (r, payload) ∧ payload = writeString [] what ∧
      msg.length = 8 + payload.length ∧ r.size = (8 + payload.length) % 2 ^ 32) := by
  have hpatch : ∀ (s : Stream) (g : Header), 8 ≤ s.length →
      (patchHeader s g).length = 8 + (s.drop 8).length ∧ s.length = 8 + (s.drop 8).length := by
    intro s g hs
    unfold patchHeader
    rw [List.length_append, leBytes_length, List.length_drop]
    omega
  constructor
  · refine ⟨_, _, _, Send.result_eq trp h o,
      readHeader_patchHeader _ _ (replyHeader_inRange h hr 1 _ (by norm_num)), rfl,
      (hpatch o _ ho).1, ?_⟩
    show writeSize o % 2 ^ Header.kSizeBits = _
    unfold writeSize
    rw [(hpatch o h ho).2, List.length_drop]
    simp [Header.kSizeBits]
  · have hlen : 8 ≤ (writeString (writeHeader [] h) what).length := by
      unfold writeString writeHeader
      simp only [List.nil_append, List.length_append, leBytes_length]
      omega
    refine ⟨_, _, _, Send.error_eq trp h what,
      readHeader_patchHeader _ _ (replyHeader_inRange h hr 0 _ (by norm_num)),
      drop_header_writeString h what, ?_, ?_⟩
    · exact (hpatch _ _ hlen).1
    · show writeSize (writeString (writeHeader [] h) what) % 2 ^ Header.kSizeBits = _
      unfold writeSize
      rw [(hpatch _ h hlen).2]
      simp [Header.kSizeBits]

/-- Witness of C16 (amended): a result buffer with a two-byte payload and the error text "no". -/
theorem reply_size_is_buffer_length_witness :
    (∃ msg r payload, Send.result {} { counter := 77 } (writeHeader [] {} ++ [1, 2]) =
        Transport.send {} msg ∧ readHeader msg = some (r, payload) ∧
      payload = (writeHeader [] {} ++ [1, 2]).drop 8 ∧ msg.length = 8 + payload.length ∧
      r.size = (8 + payload.length) % 2 ^ 32) ∧
    (∃ msg r payload, Send.error {} { counter := 77 } "no" = Transport.send {} msg ∧
      readHeader msg = some (r, payload) ∧ payload = writeString [] "no" ∧
      msg.length = 8 + payload.length ∧ r.size = (8 + payload.length) % 2 ^ 32) :=
  reply_size_is_buffer_length {} { counter := 77 } (by decide) (writeHeader [] {} ++ [1, 2])
    (by decide) "no"

end KeyAndSize

section GenericRegistration

variable {Obj OD : Type}

/-- C17 (counterexample): after `registerControlRPC("ping", &InProcessorData::auth)` on the
empty table, the table holds an entry and `registerGenericRPC` succeeds all the same. -/
theorem generic_after_control_succeeds :
    ∃ t1 t2 : TableImpl Nat,
      Example.empty.registerControlRPC "ping" .auth = .ok t1 ∧
      t1.m_controlrpcs.length = 1 ∧ t1.registerGenericRPC = .ok t2 :=
  ⟨_, _, rfl, rfl, rfl⟩

/-- C17 (amended): `registerGenericRPC` must be called before any ordinary procedure is
registered: it succeeds only when no ordinary procedure has been registered yet and no control
procedure already carries one of the names `__auth`, `__getProperty`, `__setProperty`, and it
fails, leaving the table as it was, on every table that holds an ordinary entry. -/
theorem registerGenericRPC_succeeds_only_when (t t1 : TableImpl Obj)
    (h : t.registerGenericRPC = .ok t1) :
    (t.m_rpcs = [] ∧
      ∀ info ∈ t.m_controlrpcs,
        info.name ≠ "__auth" ∧ info.name ≠ "__getProperty" ∧ info.name ≠ "__setProperty") ∧
    ∀ u : TableImpl Obj, u.m_rpcs ≠ [] → u.registerGenericRPC = .error u := by
  constructor
  · unfold TableImpl.registerGenericRPC at h
    cases hr : t.m_rpcs with
    | cons a l =>
      rw [hr] at h
      simp at h
    | nil =>
      rw [hr] at h
      simp only [List.length_nil, ne_eq, not_true_eq_false, if_false, List.nil_append] at h
      refine ⟨rfl, ?_⟩
      -- each of the three control registrations stops at its assert when the name is taken
      have key : ∀ (u : TableImpl Obj) (name : String) (c : ControlFn),
          u.m_rpcs = [Info.mk "genericRPC" .generic] → name ≠ "genericRPC" →
          (u.getControlByName name = none →
            u.registerControlRPC name c =
              .ok { u with m_controlrpcs := u.m_controlrpcs ++ [Info.mk name (.control c)] }) ∧
          (u.getControlByName name ≠ none → u.registerControlRPC name c = .error u) := by
        intro u name c hu hne
        have hby : u.getByName name = none := by
          rw [TableImpl.getByName_eq_none, hu]
          intro info hi
          simp only [List.mem_singleton] at hi
          rw [hi]
          exact fun h => hne h.symm
        unfold TableImpl.registerControlRPC
        constructor
        · intro h
          simp [hby, h]
        · intro h
          cases hc : u.getControlByName name with
          | none => exact absurd hc h
          | some i => simp [hby]
      by_cases h1 : TableImpl.getControlByName
          { t with m_rpcs := [Info.mk "genericRPC" .generic] } "__auth" = none
      · rw [(key _ "__auth" .auth rfl (by decide)).1 h1] at h
        simp only [Except.bind] at h
        by_cases h2 : TableImpl.getControlByName
            { t with m_rpcs := [Info.mk "genericRPC" .generic],
                     m_controlrpcs := t.m_controlrpcs ++ [Info.mk "__auth" (.control .auth)] }
            "__getProperty" = none
        · rw [(key _ "__getProperty" .getProperty rfl (by decide)).1 h2] at h
          simp only [Except.bind] at h
          by_cases h3 : TableImpl.getControlByName
              { t with m_rpcs := [Info.mk "genericRPC" .generic],
                       m_controlrpcs := t.m_controlrpcs ++ [Info.mk "__auth" (.control .auth)] ++
                         [Info.mk "__getProperty" (.control .getProperty)] }
              "__setProperty" = none
          · rw [TableImpl.getControlByName_eq_none] at h1 h2 h3
            intro info hi
            exact ⟨h1 info hi, h2 info (List.mem_append_left _ hi),
              h3 info (List.mem_append_left _ (List.mem_append_left _ hi))⟩
          · rw [(key _ "__setProperty" .setProperty rfl (by decide)).2 h3] at h
            cases h
        · rw [(key _ "__getProperty" .getProperty rfl (by decide)).2 h2] at h
          cases h
      · rw [(key _ "__auth" .auth rfl (by decide)).2 h1] at h
        cases h
  · intro u hu
    unfold TableImpl.registerGenericRPC
    rw [if_pos]
    intro hlen
    exact hu (List.length_eq_zero.1 hlen)

/-- Witness of C17 (amended): the table holding the control procedure `ping`, on which
`registerGenericRPC` succeeds. -/
theorem registerGenericRPC_succeeds_only_when_witness :
    ((TableImpl.mk "Calc" [] [Info.mk "ping" (.control .auth)] : TableImpl Nat).m_rpcs = [] ∧
      ∀ info ∈ (TableImpl.mk "Calc" [] [Info.mk "ping" (.control .auth)] :
          TableImpl Nat).m_controlrpcs,
        info.name ≠ "__auth" ∧ info.name ≠ "__getProperty" ∧ info.name ≠ "__setProperty") ∧
    ∀ u : TableImpl Nat, u.m_rpcs ≠ [] → u.registerGenericRPC = .error u :=
  registerGenericRPC_succeeds_only_when
    (TableImpl.mk "Calc" [] [Info.mk "ping" (.control .auth)])
    (TableImpl.mk "Calc" [Info.mk "genericRPC" .generic]
      [Info.mk "ping" (.control .auth), Info.mk "__auth" (.control .auth),
        Info.mk "__getProperty" (.control .getProperty),
        Info.mk "__setProperty" (.control .setProperty)])
    rfl

end GenericRegistration

section PendingCounter

variable {Obj OD : Type}

theorem PendingFutures.insert_of_fresh (m : List (Nat × PendingFuture)) (k : Nat)
    (v : PendingFuture) (h : ∀ e ∈ m, e.1 ≠ k) : PendingFutures.insert m k v = m ++ [(k, v)] := by
  unfold PendingFutures.insert
  rw [if_neg]
  simp only [List.any_eq_true, beq_iff_eq, not_exists, not_and]
  exact fun e he => h e he

/-- The keys of the pending map stay below the pending counter. -/
theorem Issued.keys_lt {env : Collaborators OD} {w : World Obj OD} (hw : Issued env w) :
    ∀ e ∈ w.out.pending.futures, e.1 < w.out.pending.counter := by
  induction hw with
  | fresh w h =>
    rw [h]
    intro e he
    cases he
  | @dispatch w w1 f params hdr _ hwrap hcall ih =>
    obtain ⟨_, _, _, _, hc, hf⟩ := Dispatcher.implAsync_ok f params w w1 hdr hcall
    rw [Nat.mod_eq_of_lt hwrap] at hc
    rw [PendingFutures.insert_of_fresh _ _ _ (fun e he => Nat.ne_of_lt (ih e he))] at hf
    intro e he
    rw [hf] at he
    rw [hc]
    rcases List.mem_append.1 he with he | he
    · exact Nat.lt_succ_of_lt (ih e he)
    · simp only [List.mem_singleton] at he
      rw [he]
      exact Nat.lt_succ_self _
  | @complete w f counter hdr ft _ ih =>
    intro e he
    rw [Dispatcher.processReady_out] at he ⊢
    have hmem := (PendingFutures.mem_retire _ counter e).1 he
    show e.1 < (w.out.pending.retire counter).counter
    rw [PendingFutures.retire_counter]
    exact ih e hmem.1

/-- C20: in every connection state reachable from a fresh connection by asynchronous dispatches
that do not wrap the counter and by completions, every key of the pending map is below the
pending counter; so a further asynchronous dispatch finds the counter's value absent from the
map, adds its handle under that key after the entries already there, and leaves the counter
one higher. -/
theorem pending_keys_below_counter (env : Collaborators OD) (w : World Obj OD)
    (hw : Issued env w) :
    (∀ e ∈ w.out.pending.futures, e.1 < w.out.pending.counter) ∧
    ∀ (f : Proc Obj) (params : f.P) (hdr : Header) (w1 : World Obj OD),
      w.out.pending.counter + 1 < 2 ^ 32 → Dispatcher.implAsync f params w hdr = .ok w1 →
        (∀ e ∈ w.out.pending.futures, e.1 ≠ w.out.pending.counter) ∧
        w1.out.pending.counter = w.out.pending.counter + 1 ∧
        w1.out.pending.futures =
          w.out.pending.futures ++
            [(w.out.pending.counter, { counter := w.out.pending.counter, hdr := hdr })] := by
  have hlt := hw.keys_lt
  refine ⟨hlt, ?_⟩
  intro f params hdr w1 hwrap hcall
  obtain ⟨_, _, _, _, hc, hf⟩ := Dispatcher.implAsync_ok f params w w1 hdr hcall
  have hfresh : ∀ e ∈ w.out.pending.futures, e.1 ≠ w.out.pending.counter :=
    fun e he => Nat.ne_of_lt (hlt e he)
  rw [Nat.mod_eq_of_lt hwrap] at hc
  rw [PendingFutures.insert_of_fresh _ _ _ hfresh] at hf
  exact ⟨hfresh, hc, hf⟩

/-- Witness of C20: the connection after one call of `slow`; the second call is stored under
the key 1. -/
theorem pending_keys_below_counter_witness :
    (∀ e ∈ Example.world1.out.pending.futures, e.1 < Example.world1.out.pending.counter) ∧
    ∀ (f : Proc Nat) (params : f.P) (hdr : Header) (w1 : World Nat String),
      Example.world1.out.pending.counter + 1 < 2 ^ 32 →
      Dispatcher.implAsync f params Example.world1 hdr = .ok w1 →
        (∀ e ∈ Example.world1.out.pending.futures, e.1 ≠ Example.world1.out.pending.counter) ∧
        w1.out.pending.counter = Example.world1.out.pending.counter + 1 ∧
        w1.out.pending.futures =
          Example.world1.out.pending.futures ++
            [(Example.world1.out.pending.counter,
              { counter := Example.world1.out.pending.counter, hdr := hdr })] :=
  pending_keys_below_counter Example.env Example.world1
    (Issued.dispatch Example.slow (5 : Nat) Example.request1
      (Issued.fresh Example.world rfl) (by decide) rfl)

end PendingCounter

/-! ## The console command line -/

namespace ServerConsole

/-! ### Lists of characters -/

theorem span_append_cons {α : Type} (p : α → Bool) (a : List α) (x : α) (b : List α)
    (ha : ∀ y ∈ a, p y = true) (hx : p x = false) : (a ++ x :: b).span p = (a, x :: b) := by
  rw [List.span_eq_take_drop]
  induction a with
  | nil => simp [List.takeWhile, List.dropWhile, hx]
  | cons y a ih =>
    have hy : p y = true := ha y (List.mem_cons_self _ _)
    have ih := ih (fun z hz => ha z (List.mem_cons_of_mem _ hz))
    simp only [Prod.mk.injEq] at ih
    simp [List.takeWhile, List.dropWhile, hy, ih.1, ih.2]

theorem span_all {α : Type} (p : α → Bool) (a : List α) (ha : ∀ y ∈ a, p y = true) :
    a.span p = (a, []) := by
  rw [List.span_eq_take_drop]
  induction a with
  | nil => rfl
  | cons y a ih =>
    have hy : p y = true := ha y (List.mem_cons_self _ _)
    have ih := ih (fun z hz => ha z (List.mem_cons_of_mem _ hz))
    simp only [Prod.mk.injEq] at ih
    simp [List.takeWhile, List.dropWhile, hy, ih.1, ih.2]

theorem dropWhile_of_head {α : Type} (p : α → Bool) (l : List α)
    (h : ∀ x ∈ l.head?, p x = false) : l.dropWhile p = l := by
  cases l with
  | nil => rfl
  | cons x l => simp [List.dropWhile, h x (by simp)]

theorem trim_eq_self (l : List Char) (hh : ∀ x ∈ l.head?, isspace x = false)
    (hl : ∀ x ∈ l.getLast?, isspace x = false) : trim l = l := by
  unfold trim
  rw [dropWhile_of_head isspace l hh,
    dropWhile_of_head isspace l.reverse (by rw [List.head?_reverse]; exact hl),
    List.reverse_reverse]

theorem trim_append_space (l : List Char) (hne : l ≠ [])
    (hh : ∀ x ∈ l.head?, isspace x = false) (hl : ∀ x ∈ l.getLast?, isspace x = false) :
    trim (l ++ [' ']) = l := by
  unfold trim
  have h1 : (l ++ [' ']).dropWhile isspace = l ++ [' '] := by
    apply dropWhile_of_head
    cases l with
    | nil => exact absurd rfl hne
    | cons x l => exact hh
  rw [h1, List.reverse_append]
  have h2 : ([' '] : List Char).reverse ++ l.reverse = ' ' :: l.reverse := rfl
  rw [h2]
  have h3 : (' ' :: l.reverse).dropWhile isspace = l.reverse.dropWhile isspace := by
    simp [List.dropWhile, isspace]
  rw [h3, dropWhile_of_head isspace l.reverse (by rw [List.head?_reverse]; exact hl),
    List.reverse_reverse]

theorem isspace_of_isDigit (c : Char) (h : c.isDigit = true) : isspace c = false := by
  cases hs : isspace c with
  | false => rfl
  | true =>
    simp only [isspace, Bool.or_eq_true, beq_iff_eq] at hs
    rcases hs with ((((hs | hs) | hs) | hs) | hs) | hs <;>
      (rw [hs] at h; revert h; decide)

theorem ne_of_isDigit (c x : Char) (h : c.isDigit = true) (hx : x.isDigit = false) : c ≠ x := by
  intro he
  rw [he, hx] at h
  cases h

/-- The digits accumulated from the left give the number the digits denote. -/
theorem IStream.accumulate_eq_number (digits : List Char) :
    IStream.accumulate digits = Literal.number digits := by
  have key : ∀ (l : List Char) (acc : Nat),
      l.foldl (fun acc d => 10 * acc + (d.toNat - '0'.toNat)) acc =
        acc * 10 ^ l.length + Nat.ofDigits 10 (l.reverse.map fun d => d.toNat - 48) := by
    intro l
    induction l with
    | nil => intro acc; simp
    | cons d l ih =>
      intro acc
      rw [List.foldl_cons, ih, List.reverse_cons, List.map_append, Nat.ofDigits_append]
      simp only [List.map_cons, List.map_nil, Nat.ofDigits_singleton, List.length_map,
        List.length_reverse, List.length_cons, pow_succ]
      have h0 : '0'.toNat = 48 := rfl
      rw [h0]
      ring
  unfold IStream.accumulate Literal.number
  rw [key]
  simp


/-! ### One parameter -/

theorem IStream.readInt_digits (digits : List Char) (hne : digits ≠ [])
    (hd : ∀ d ∈ digits, d.isDigit = true) (hfit : Literal.number digits ≤ 2147483647) :
    IStream.readInt { buf := digits } =
      (some (Literal.number digits : Int), { buf := [], eof := true }) := by
  obtain ⟨d, ds, rfl⟩ := List.exists_cons_of_ne_nil hne
  have hdig : d.isDigit = true := hd d (List.mem_cons_self _ _)
  have hdrop : (d :: ds).dropWhile isspace = d :: ds :=
    dropWhile_of_head isspace _ (fun x hx => by
      simp only [List.head?_cons, Option.mem_def, Option.some.injEq] at hx
      rw [← hx]
      exact isspace_of_isDigit d hdig)
  have hminus : d ≠ '-' := ne_of_isDigit d '-' hdig (by decide)
  have hplus : d ≠ '+' := ne_of_isDigit d '+' hdig (by decide)
  have hspan : (d :: ds).span Char.isDigit = (d :: ds, []) := span_all _ _ hd
  have hacc := IStream.accumulate_eq_number (d :: ds)
  unfold IStream.readInt
  simp only [IStream.good, Bool.not_false, Bool.and_self, Bool.not_true, Bool.false_eq_true,
    if_false, hdrop, List.head?_cons, List.tail_cons]
  have h1 : (some d == some '-') = false := by simpa using hminus
  have h2 : (some d == some '+') = false := by simpa using hplus
  simp only [h1, h2, Bool.or_self, Bool.false_eq_true, if_false, hspan, hacc]
  have h3 : ¬ ((Literal.number (d :: ds) : Int) < -2147483648) := by omega
  have h4 : ¬ ((2147483647 : Int) < (Literal.number (d :: ds) : Int)) := by omega
  simp [h3, h4]

theorem parseParameter_int (env : Environment) (digits : List Char) (hne : digits ≠ [])
    (hd : ∀ d ∈ digits, d.isDigit = true) (hfit : Literal.number digits ≤ 2147483647) :
    parseParameter env digits = some (Any.integer (Literal.number digits)) := by
  have hread := IStream.readInt_digits digits hne hd hfit
  obtain ⟨d, ds, rfl⟩ := List.exists_cons_of_ne_nil hne
  have hdig : d.isDigit = true := hd d (List.mem_cons_self _ _)
  have htrim : trim (d :: ds) = d :: ds :=
    trim_eq_self _
      (fun x hx => isspace_of_isDigit x (hd x (List.mem_of_mem_head? hx)))
      (fun x hx => isspace_of_isDigit x (hd x (List.mem_of_mem_getLast? hx)))
  have hdot : (d :: ds).contains '.' = false := by
    rw [Bool.eq_false_iff]
    intro hc
    have hmem : '.' ∈ d :: ds := by simpa using hc
    have := hd '.' hmem
    revert this
    decide
  have hpeek : IStream.peek { buf := d :: ds } = (some d, { buf := d :: ds }) := rfl
  unfold parseParameter
  simp only [htrim, hpeek, Option.any_some, hdig, if_true, hdot, Bool.not_false, hread]

theorem parseParameter_str (env : Environment) (body : List Char) (hq : '"' ∉ body)
    (hnul : Char.ofNat 0 ∉ body) :
    parseParameter env ('"' :: body ++ ['"']) = some (Any.string (String.mk body)) := by
  have htrim : trim ('"' :: body ++ ['"']) = '"' :: body ++ ['"'] :=
    trim_eq_self _
      (fun x hx => by
        simp only [List.cons_append, List.head?_cons, Option.mem_def, Option.some.injEq] at hx
        rw [← hx]
        decide)
      (fun x hx => by
        have hcat : '"' :: body ++ ['"'] = ('"' :: body) ++ ['"'] := rfl
        rw [hcat, List.getLast?_concat] at hx
        simp only [Option.mem_def, Option.some.injEq] at hx
        rw [← hx]
        decide)
  have hpeek : IStream.peek { buf := '"' :: body ++ ['"'] } =
      (some '"', { buf := '"' :: body ++ ['"'] }) := rfl
  have hchar : IStream.readChar { buf := '"' :: body ++ ['"'] } =
      (some '"', { buf := body ++ ['"'] }) := rfl
  have hspan : (body ++ ['"']).span (fun c => c != '"') = (body, ['"']) :=
    span_append_cons _ body '"' []
      (fun y hy => by
        simp only [bne_iff_ne, ne_eq]
        rintro rfl
        exact hq hy)
      (by simp)
  have hline : IStream.getline { buf := body ++ ['"'] } '"' = (some body, { buf := [] }) := by
    unfold IStream.getline
    simp only [IStream.good, Bool.not_false, Bool.and_self, Bool.not_true, Bool.false_eq_true,
      if_false, hspan]
  have hend : IStream.peek { buf := [] } = (none, { buf := [], eof := true }) := rfl
  have hc : c_str body = body := by
    unfold c_str
    rw [List.takeWhile_eq_self_iff]
    intro x hx
    simp only [bne_iff_ne, ne_eq]
    rintro rfl
    exact hnul hx
  unfold parseParameter
  simp only [htrim, hpeek, hchar, hline, hend, hc]
  simp

theorem parseParameter_bool (env : Environment) (value upper : Bool) :
    parseParameter env (Literal.bool value upper).text = some (Any.bool value) := by
  cases value <;> cases upper <;> rfl

/-- Every well-formed literal without a NUL is read as the value it stands for. -/
theorem parseParameter_literal (env : Environment) (l : Literal) (hwf : l.WellFormed)
    (hnul : l.NulFree) : parseParameter env l.text = some l.value := by
  cases l with
  | int digits => exact parseParameter_int env digits hwf.1 hwf.2.1 hwf.2.2
  | str body => exact parseParameter_str env body hwf.1 hnul
  | bool value upper => exact parseParameter_bool env value upper


/-! ### The parameter list -/

theorem Literal.text_ne_nil (l : Literal) (hwf : l.WellFormed) : l.text ≠ [] := by
  cases l with
  | int digits => exact hwf.1
  | str body => simp [Literal.text]
  | bool value upper => cases value <;> cases upper <;> simp [Literal.text]

theorem Literal.text_no_comma (l : Literal) (hwf : l.WellFormed) :
    ∀ c ∈ l.text, (c != ',') = true := by
  intro c hc
  simp only [bne_iff_ne, ne_eq]
  rintro rfl
  cases l with
  | int digits =>
    have := hwf.2.1 ',' hc
    revert this
    decide
  | str body =>
    have hmem : ',' ∈ '"' :: (body ++ ['"']) := hc
    rw [List.mem_cons, List.mem_append, List.mem_singleton] at hmem
    rcases hmem with h | h | h
    · exact absurd h (by decide)
    · exact hwf.2 h
    · exact absurd h (by decide)
  | bool value upper =>
    cases value <;> cases upper <;> (revert hc; decide)

theorem Literal.text_head (l : Literal) (hwf : l.WellFormed) :
    ∀ x ∈ l.text.head?, isspace x = false := by
  intro x hx
  cases l with
  | int digits => exact isspace_of_isDigit x (hwf.2.1 x (List.mem_of_mem_head? hx))
  | str body =>
    simp only [Literal.text, List.cons_append, List.head?_cons, Option.mem_def,
      Option.some.injEq] at hx
    rw [← hx]
    decide
  | bool value upper =>
    cases value <;> cases upper <;>
      (simp only [Literal.text, List.head?_cons, Option.mem_def, Option.some.injEq] at hx
       rw [← hx]
       decide)

theorem Literal.text_getLast (l : Literal) (hwf : l.WellFormed) :
    ∀ x ∈ l.text.getLast?, isspace x = false := by
  intro x hx
  cases l with
  | int digits => exact isspace_of_isDigit x (hwf.2.1 x (List.mem_of_mem_getLast? hx))
  | str body =>
    have hcat : Literal.text (.str body) = ('"' :: body) ++ ['"'] := rfl
    rw [hcat, List.getLast?_concat] at hx
    simp only [Option.mem_def, Option.some.injEq] at hx
    rw [← hx]
    decide
  | bool value upper =>
    cases value <;> cases upper <;>
      (simp only [Literal.text, List.getLast?, List.getLast, Option.mem_def,
        Option.some.injEq] at hx
       rw [← hx]
       decide)

theorem paramsText_cons_cons (l l2 : Literal) (rest : List Literal) :
    paramsText (l :: l2 :: rest) = l.text ++ ',' :: paramsText (l2 :: rest) := rfl

theorem paramsText_ne_nil (lits : List Literal) (hne : lits ≠ [])
    (hwf : ∀ l ∈ lits, l.WellFormed) : paramsText lits ≠ [] := by
  cases lits with
  | nil => exact absurd rfl hne
  | cons l rest =>
    cases rest with
    | nil => exact Literal.text_ne_nil l (hwf l (List.mem_cons_self _ _))
    | cons l2 rest =>
      rw [paramsText_cons_cons]
      intro h
      have := congrArg List.length h
      simp at this

theorem paramsText_getLast (lits : List Literal) (hwf : ∀ l ∈ lits, l.WellFormed) :
    ∀ x ∈ (paramsText lits).getLast?, isspace x = false := by
  induction lits with
  | nil => intro x hx; cases hx
  | cons l rest ih =>
    cases rest with
    | nil => exact Literal.text_getLast l (hwf l (List.mem_cons_self _ _))
    | cons l2 rest =>
      intro x hx
      have hrest : ∀ l ∈ l2 :: rest, l.WellFormed :=
        fun k hk => hwf k (List.mem_cons_of_mem _ hk)
      have hne := paramsText_ne_nil (l2 :: rest) (by simp) hrest
      rw [paramsText_cons_cons, List.getLast?_append_of_ne_nil _ (by simp)] at hx
      obtain ⟨y, ys, hy⟩ := List.exists_cons_of_ne_nil hne
      rw [hy, List.getLast?_cons_cons, ← hy] at hx
      exact ih hrest x hx

theorem IStream.getline_at_end (s : IStream) (delim : Char) (h : s.eof = true) :
    (s.getline delim).1 = none := by
  unfold IStream.getline
  simp [IStream.good, h]

theorem parseParameters_at_end (env : Environment) (bound : Nat) (s : IStream)
    (cmd : GenericCommand) (h : s.eof = true) :
    parseParameters env (bound + 1) s cmd = some cmd := by
  have hg := IStream.getline_at_end s ',' h
  unfold parseParameters
  rcases hs : s.getline ',' with ⟨str, s1⟩
  rw [hs] at hg
  simp only at hg
  rw [hg]

/-- The loop reads a list of well-formed literals as their values, in order. -/
theorem parseParameters_literals (env : Environment) (lits : List Literal) :
    lits ≠ [] → (∀ l ∈ lits, l.WellFormed ∧ l.NulFree) →
      ∀ (bound : Nat) (cmd : GenericCommand), (paramsText lits).length < bound →
        parseParameters env bound { buf := paramsText lits } cmd =
          some { cmd with params := cmd.params ++ lits.map Literal.value } := by
  induction lits with
  | nil => intro hne; exact absurd rfl hne
  | cons l rest ih =>
    intro _ hl bound cmd hb
    have hwf := (hl l (List.mem_cons_self _ _)).1
    have hnul := (hl l (List.mem_cons_self _ _)).2
    have hparam := parseParameter_literal env l hwf hnul
    have htext := Literal.text_ne_nil l hwf
    obtain ⟨x, xs, hx⟩ := List.exists_cons_of_ne_nil htext
    cases rest with
    | nil =>
      have hlen : 1 ≤ l.text.length := by rw [hx]; simp
      obtain ⟨b, rfl⟩ : ∃ b, bound = b + 2 := ⟨bound - 2, by
        have : (paramsText [l]).length = l.text.length := rfl
        omega⟩
      have hspan : l.text.span (fun c => c != ',') = (l.text, []) :=
        span_all _ _ (Literal.text_no_comma l hwf)
      have hline : IStream.getline { buf := paramsText [l] } ',' =
          (some l.text, { buf := [], eof := true }) := by
        show IStream.getline { buf := l.text } ',' = _
        unfold IStream.getline
        simp only [IStream.good, Bool.not_false, Bool.and_self, Bool.not_true,
          Bool.false_eq_true, if_false, hspan]
        rw [hx]
        rfl
      rw [parseParameters, hline]
      simp only [hparam]
      rw [parseParameters_at_end env b _ _ rfl]
      rfl
    | cons l2 rest =>
      have hrest : ∀ k ∈ l2 :: rest, k.WellFormed ∧ k.NulFree :=
        fun k hk => hl k (List.mem_cons_of_mem _ hk)
      have hlen : (paramsText (l :: l2 :: rest)).length =
          l.text.length + 1 + (paramsText (l2 :: rest)).length := by
        rw [paramsText_cons_cons]
        simp only [List.length_append, List.length_cons]
        omega
      obtain ⟨b, rfl⟩ : ∃ b, bound = b + 1 := ⟨bound - 1, by omega⟩
      have hspan : (l.text ++ ',' :: paramsText (l2 :: rest)).span (fun c => c != ',') =
          (l.text, ',' :: paramsText (l2 :: rest)) :=
        span_append_cons _ _ _ _ (Literal.text_no_comma l hwf) (by simp)
      have hline : IStream.getline { buf := paramsText (l :: l2 :: rest) } ',' =
          (some l.text, { buf := paramsText (l2 :: rest) }) := by
        rw [paramsText_cons_cons]
        unfold IStream.getline
        simp only [IStream.good, Bool.not_false, Bool.and_self, Bool.not_true,
          Bool.false_eq_true, if_false, hspan]
      rw [parseParameters, hline]
      simp only [hparam]
      rw [ih (by simp) hrest b _ (by omega)]
      simp


/-! ### The command line -/

/-- The first token of the line: the command word, with the connection name before it. -/
theorem parse_name (env : Environment) (c : Option String) (w : String)
    (hw : w.data ≠ []) (hws : ∀ ch ∈ w.data, isspace ch = false ∧ ch ≠ '.')
    (hc : ∀ cn, c = some cn → ∀ ch ∈ cn.data, isspace ch = false ∧ ch ≠ '.')
    (ss : IStream) (token : List Char)
    (htoken : token = firstToken c w)
    (rest : Option GenericCommand)
    (hrest : parseParameters env (ss.buf.length + 1) ss { conName := c.getD "", cmd := w } =
      rest) :
    (let sstoken : IStream := { buf := token }
     let named :=
      if token.contains '.' then
        match sstoken.getline '.' with
        | (none, _) => none
        | (some conName, sstoken) => some (String.mk conName, sstoken)
      else some ("", sstoken)
     match named with
     | none => some {}
     | some (conName, sstoken) =>
      let cmd :=
        match sstoken.readWord.1 with
        | some word => String.mk word
        | none => ""
      let sstoken := sstoken.readWord.2
      if sstoken.peek.1 != none then some {}
      else
        parseParameters env (ss.buf.length + 1) ss { conName := conName, cmd := cmd }) =
      rest := by
  obtain ⟨x, xs, hx⟩ := List.exists_cons_of_ne_nil hw
  have hword : IStream.readWord { buf := w.data } = (some w.data, { buf := [], eof := true }) := by
    have hdrop : w.data.dropWhile isspace = w.data :=
      dropWhile_of_head isspace _ (fun y hy => (hws y (List.mem_of_mem_head? hy)).1)
    have hspan : w.data.span (fun ch => !isspace ch) = (w.data, []) :=
      span_all _ _ (fun y hy => by rw [(hws y hy).1]; rfl)
    unfold IStream.readWord
    simp only [IStream.good, Bool.not_false, Bool.and_self, Bool.not_true, Bool.false_eq_true,
      if_false, hdrop, hspan]
  have hpeek : (IStream.peek { buf := [], eof := true }).1 = none := rfl
  have hnodot : w.data.contains '.' = false := by
    rw [Bool.eq_false_iff]
    intro hcon
    have hmem : '.' ∈ w.data := by simpa using hcon
    exact (hws '.' hmem).2 rfl
  cases c with
  | none =>
    simp only [firstToken] at htoken
    subst htoken
    simp only [hnodot, Bool.false_eq_true, if_false, hword, hpeek]
    exact hrest
  | some cn =>
    simp only [firstToken] at htoken
    subst htoken
    have hdot : (cn.data ++ '.' :: w.data).contains '.' = true := by simp
    have hspan : (cn.data ++ '.' :: w.data).span (fun ch => ch != '.') =
        (cn.data, '.' :: w.data) :=
      span_append_cons _ _ _ _
        (fun y hy => by
          simp only [bne_iff_ne, ne_eq]
          exact (hc cn rfl y hy).2)
        (by simp)
    have hline : IStream.getline { buf := cn.data ++ '.' :: w.data } '.' =
        (some cn.data, { buf := w.data }) := by
      unfold IStream.getline
      simp only [IStream.good, Bool.not_false, Bool.and_self, Bool.not_true,
        Bool.false_eq_true, if_false, hspan]
    simp only [hdot, if_true, hline, hword, hpeek]
    exact hrest

/-- C19 (amended): for a non-empty command word and an optional connection name, both without
whitespace and `.`, and parameter literals that are non-negative decimal integers fitting in
`int`, double-quoted strings without `"`, `,` and NUL, or `true`/`TRUE`/`false`/`FALSE`, the line
`w p1,...,pn` (or `c.w p1,...,pn`) is parsed into the command with that word, that connection
name (empty when none is given) and the values of the literals, in order. -/
theorem parse_command_line (env : Environment) (c : Option String) (w : String)
    (lits : List Literal) (hw : w.data ≠ [])
    (hws : ∀ ch ∈ w.data, isspace ch = false ∧ ch ≠ '.')
    (hc : ∀ cn, c = some cn → ∀ ch ∈ cn.data, isspace ch = false ∧ ch ≠ '.')
    (hl : ∀ l ∈ lits, l.WellFormed ∧ l.NulFree) :
    parseCommandParameters env (commandLine c w lits) =
      some { conName := c.getD "", cmd := w, params := lits.map Literal.value } := by
  -- the first token
  have hwf : ∀ l ∈ lits, l.WellFormed := fun l h => (hl l h).1
  obtain ⟨token, htoken⟩ : ∃ token : List Char, token = firstToken c w := ⟨_, rfl⟩
  have hall : ∀ ch ∈ token, isspace ch = false := by
    intro ch hch
    cases c with
    | none =>
      simp only [firstToken] at htoken
      rw [htoken] at hch
      exact (hws ch hch).1
    | some cn =>
      simp only [firstToken] at htoken
      rw [htoken, List.mem_append, List.mem_cons] at hch
      rcases hch with h | h | h
      · exact (hc cn rfl ch h).1
      · rw [h]; decide
      · exact (hws ch h).1
  have hne : token ≠ [] := by
    cases c with
    | none => simp only [firstToken] at htoken; rw [htoken]; exact hw
    | some cn => simp only [firstToken] at htoken; rw [htoken]; simp
  have hnosp : ∀ ch ∈ token, (ch != ' ') = true := by
    intro ch hch
    simp only [bne_iff_ne, ne_eq]
    rintro rfl
    have := hall ' ' hch
    revert this
    decide
  have hline : (commandLine c w lits).data = token ++ ' ' :: paramsText lits := by
    rw [htoken]
    rfl
  obtain ⟨x, xs, hx⟩ := List.exists_cons_of_ne_nil hne
  unfold parseCommandParameters
  rw [hline]
  by_cases hlits : lits = []
  · -- no parameters: the trailing blank is trimmed away
    subst hlits
    have htrim : trim (token ++ ' ' :: paramsText []) = token :=
      trim_append_space token hne (fun y hy => hall y (List.mem_of_mem_head? hy))
        (fun y hy => hall y (List.mem_of_mem_getLast? hy))
    have hget : IStream.getline { buf := token } ' ' = (some token, { buf := [], eof := true }) := by
      unfold IStream.getline
      simp only [IStream.good, Bool.not_false, Bool.and_self, Bool.not_true,
        Bool.false_eq_true, if_false, span_all _ _ hnosp]
      rw [hx]
      rfl
    simp only [htrim, hget]
    exact parse_name env c w hw hws hc { buf := [], eof := true } token htoken _
      (parseParameters_at_end env _ _ _ rfl)
  · have hpne := paramsText_ne_nil lits hlits hwf
    have htrim : trim (token ++ ' ' :: paramsText lits) = token ++ ' ' :: paramsText lits := by
      apply trim_eq_self
      · intro y hy
        rw [hx] at hy
        simp only [List.cons_append, List.head?_cons, Option.mem_def, Option.some.injEq] at hy
        exact hall y (by rw [hx, ← hy]; exact List.mem_cons_self _ _)
      · intro y hy
        rw [List.getLast?_append_of_ne_nil _ (by simp)] at hy
        obtain ⟨z, zs, hz⟩ := List.exists_cons_of_ne_nil hpne
        rw [hz, List.getLast?_cons_cons, ← hz] at hy
        exact paramsText_getLast lits hwf y hy
    have hget : IStream.getline { buf := token ++ ' ' :: paramsText lits } ' ' =
        (some token, { buf := paramsText lits }) := by
      unfold IStream.getline
      simp only [IStream.good, Bool.not_false, Bool.and_self, Bool.not_true,
        Bool.false_eq_true, if_false,
        span_append_cons _ token ' ' (paramsText lits) hnosp (by simp)]
    simp only [htrim, hget]
    refine parse_name env c w hw hws hc { buf := paramsText lits } token htoken _ ?_
    rw [parseParameters_literals env lits hlits hl _ _ (Nat.lt_succ_self _)]
    rfl


/-! ### The loop bound -/

theorem IStream.getline_length (s s1 : IStream) (delim : Char) (str : List Char)
    (h : s.getline delim = (some str, s1)) : s1.buf.length < s.buf.length := by
  unfold IStream.getline at h
  by_cases hg : s.good = true
  · simp only [hg, Bool.not_true, Bool.false_eq_true, if_false] at h
    rw [List.span_eq_take_drop] at h
    have hlen : s.buf.length =
        (s.buf.takeWhile fun c => c != delim).length +
          (s.buf.dropWhile fun c => c != delim).length := by
      conv_lhs => rw [← List.takeWhile_append_dropWhile (fun c => c != delim) s.buf]
      rw [List.length_append]
    cases hd : s.buf.dropWhile (fun c => c != delim) with
    | nil =>
      rw [hd] at h
      simp only at h
      by_cases hemp : (s.buf.takeWhile fun c => c != delim).isEmpty = true
      · rw [if_pos hemp] at h
        cases (Prod.mk.inj h).1
      · rw [if_neg hemp] at h
        rw [← (Prod.mk.inj h).2]
        have hpos : 0 < (s.buf.takeWhile fun c => c != delim).length := by
          cases htw : s.buf.takeWhile (fun c => c != delim) with
          | nil => rw [htw] at hemp; exact absurd rfl hemp
          | cons y ys => simp
        simp only [List.length_nil]
        omega
    | cons y rest =>
      rw [hd] at h hlen
      simp only [Prod.mk.injEq, Option.some.injEq] at h
      rw [← h.2]
      simp only [List.length_cons] at hlen
      simp only
      omega
  · simp only [hg, Bool.not_false, if_true, Prod.mk.injEq] at h
    cases h.1

theorem parseParameters_ne_none (env : Environment) :
    ∀ (bound : Nat) (ss : IStream) (cmd : GenericCommand),
      ss.buf.length + (if ss.eof then 0 else 1) ≤ bound → bound ≠ 0 →
        parseParameters env bound ss cmd ≠ none := by
  intro bound
  induction bound with
  | zero => intro ss cmd _ h; exact absurd rfl h
  | succ bound ih =>
    intro ss cmd hb _
    unfold parseParameters
    rcases hline : ss.getline ',' with ⟨str, s1⟩
    cases str with
    | none => simp
    | some token =>
      simp only
      cases parseParameter env token with
      | none => simp
      | some param =>
        simp only
        have hlen := IStream.getline_length ss s1 ',' token hline
        have heof : ss.eof = false := by
          cases he : ss.eof with
          | false => rfl
          | true =>
            have := IStream.getline_at_end ss ',' he
            rw [hline] at this
            cases this
        rw [heof] at hb
        simp only [Bool.false_eq_true, if_false] at hb
        apply ih
        · split <;> omega
        · omega

/-- `parseCommandParameters` always returns a command: the bound of the loop is not reached. -/
theorem parseCommandParameters_returns (env : Environment) (str : String) :
    ∃ cmd, parseCommandParameters env str = some cmd := by
  have key : ∀ (ss : IStream) (cmd : GenericCommand),
      ∃ r, parseParameters env (ss.buf.length + 1) ss cmd = some r := by
    intro ss cmd
    have h := parseParameters_ne_none env (ss.buf.length + 1) ss cmd
      (by split <;> omega) (by omega)
    cases hr : parseParameters env (ss.buf.length + 1) ss cmd with
    | none => exact absurd hr h
    | some r => exact ⟨r, rfl⟩
  unfold parseCommandParameters
  simp only
  split
  · exact ⟨_, rfl⟩
  · split
    · exact ⟨_, rfl⟩
    · split
      · exact ⟨_, rfl⟩
      · exact key _ _

end ServerConsole

section ConsoleClaims

open ServerConsole

/-- C19 (counterexample): the string literal with the characters `a`, NUL, `b` between its
quotes contains neither `"` nor `,`, and the line `w "a<NUL>b"` is parsed into the parameter
`a`: the characters from the NUL on are lost. -/
theorem parse_string_with_nul :
    (Literal.str ['a', Char.ofNat 0, 'b']).WellFormed ∧
    parseCommandParameters ServerConsole.Example.env
        (commandLine none "w" [Literal.str ['a', Char.ofNat 0, 'b']]) =
      some { conName := "", cmd := "w", params := [Any.string "a"] } ∧
    parseCommandParameters ServerConsole.Example.env
        (commandLine none "w" [Literal.str ['a', Char.ofNat 0, 'b']]) ≠
      some { conName := "", cmd := "w",
             params := [Literal.str ['a', Char.ofNat 0, 'b']].map Literal.value } :=
  ⟨⟨by decide, by decide⟩, by decide, by decide⟩

/-- Witness of C19 (amended): the line `con.add 12,"hi there",true`. -/
theorem parse_command_line_witness :
    parseCommandParameters ServerConsole.Example.env
        (commandLine (some "con") "add"
          [Literal.int ['1', '2'], Literal.str "hi there".data, Literal.bool true false]) =
      some { conName := (some "con").getD "", cmd := "add",
             params := [Literal.int ['1', '2'], Literal.str "hi there".data,
               Literal.bool true false].map Literal.value } :=
  ServerConsole.parse_command_line ServerConsole.Example.env (some "con") "add"
    [Literal.int ['1', '2'], Literal.str "hi there".data, Literal.bool true false]
    (by decide) (by decide)
    (fun cn h => by
      cases h
      decide)
    (fun l h => by
      simp only [List.mem_cons, List.mem_singleton, List.not_mem_nil, or_false] at h
      rcases h with rfl | rfl | rfl
      · exact ⟨⟨by decide, by decide, by decide⟩, trivial⟩
      · exact ⟨⟨by decide, by decide⟩, by show Char.ofNat 0 ∉ "hi there".data; decide⟩
      · exact ⟨trivial, trivial⟩)

end ConsoleClaims

namespace ServerConsole

/-! ### What follows a number or a string -/

/-- Trimming keeps a part that starts and ends with a character other than whitespace, and cuts
the whitespace at the end of what follows it. -/
theorem trim_append (a b : List Char) (hne : a ≠ [])
    (hh : ∀ x ∈ a.head?, isspace x = false) (hl : ∀ x ∈ a.getLast?, isspace x = false) :
    trim (a ++ b) = a ++ (b.reverse.dropWhile isspace).reverse := by
  obtain ⟨y, ys, hy⟩ := List.exists_cons_of_ne_nil hne
  have h1 : (a ++ b).dropWhile isspace = a ++ b := by
    apply dropWhile_of_head
    rw [hy]
    rw [hy] at hh
    exact hh
  have h2 : a.reverse.dropWhile isspace = a.reverse :=
    dropWhile_of_head isspace a.reverse (by rw [List.head?_reverse]; exact hl)
  unfold trim
  rw [h1, List.reverse_append, List.dropWhile_append]
  by_cases hb : (b.reverse.dropWhile isspace).isEmpty = true
  · rw [if_pos hb, h2, List.reverse_reverse]
    rw [List.isEmpty_iff] at hb
    rw [hb, List.reverse_nil, List.append_nil]
  · rw [if_neg hb, List.reverse_append, List.reverse_reverse]

/-- What is left of `b` after the whitespace at its end is cut starts like `b` and holds
characters of `b` only. -/
theorem rtrim_head (b : List Char) :
    (∀ x ∈ ((b.reverse.dropWhile isspace).reverse).head?, x ∈ b.head?) ∧
      ∀ x ∈ (b.reverse.dropWhile isspace).reverse, x ∈ b := by
  have hsplit : b = (b.reverse.dropWhile isspace).reverse ++
      (b.reverse.takeWhile isspace).reverse := by
    rw [← List.reverse_append, List.takeWhile_append_dropWhile, List.reverse_reverse]
  constructor
  · intro x hx
    cases hr : (b.reverse.dropWhile isspace).reverse with
    | nil => rw [hr] at hx; cases hx
    | cons y ys =>
      rw [hr] at hx hsplit
      rw [hsplit]
      exact hx
  · intro x hx
    rw [List.mem_reverse] at hx
    exact List.mem_reverse.1 (List.dropWhile_subset isspace hx)

theorem rtrim_ne_nil (b : List Char) (h : ∃ x ∈ b, isspace x = false) :
    (b.reverse.dropWhile isspace).reverse ≠ [] := by
  intro hnil
  rw [List.reverse_eq_nil_iff, List.dropWhile_eq_nil_iff] at hnil
  obtain ⟨x, hx, hsp⟩ := h
  have := hnil x (List.mem_reverse.2 hx)
  rw [hsp] at this
  cases this

theorem IStream.readInt_prefix (digits rest : List Char) (hne : digits ≠ [])
    (hd : ∀ d ∈ digits, d.isDigit = true) (hrest : ∀ x ∈ rest.head?, x.isDigit = false)
    (hfit : Literal.number digits ≤ 2147483647) :
    (IStream.readInt { buf := digits ++ rest }).1 = some (Literal.number digits : Int) := by
  obtain ⟨d, ds, rfl⟩ := List.exists_cons_of_ne_nil hne
  have hdig : d.isDigit = true := hd d (List.mem_cons_self _ _)
  have hdrop : (d :: ds ++ rest).dropWhile isspace = d :: ds ++ rest :=
    dropWhile_of_head isspace _ (fun x hx => by
      simp only [List.cons_append, List.head?_cons, Option.mem_def, Option.some.injEq] at hx
      rw [← hx]
      exact isspace_of_isDigit d hdig)
  have hminus : d ≠ '-' := ne_of_isDigit d '-' hdig (by decide)
  have hplus : d ≠ '+' := ne_of_isDigit d '+' hdig (by decide)
  have hspan : (d :: ds ++ rest).span Char.isDigit = (d :: ds, rest) := by
    cases rest with
    | nil =>
      rw [List.append_nil]
      exact span_all _ _ hd
    | cons x xs => exact span_append_cons _ _ x xs hd (hrest x (by simp))
  have hacc := IStream.accumulate_eq_number (d :: ds)
  have hhead : (d :: ds ++ rest).head? = some d := rfl
  have htail : (d :: ds ++ rest).tail = ds ++ rest := rfl
  unfold IStream.readInt
  simp only [IStream.good, Bool.not_false, Bool.and_self, Bool.not_true, Bool.false_eq_true,
    if_false, hdrop, hhead]
  have h1 : (some d == some '-') = false := by simpa using hminus
  have h2 : (some d == some '+') = false := by simpa using hplus
  simp only [h1, h2, Bool.or_self, Bool.false_eq_true, if_false, hspan, hacc]
  have h3 : ¬ ((Literal.number (d :: ds) : Int) < -2147483648) := by omega
  have h4 : ¬ ((2147483647 : Int) < (Literal.number (d :: ds) : Int)) := by omega
  simp [h3, h4]

/-- A token that starts with a run of digits and holds no `.` is read as the number of that
run; what follows the run is not looked at. -/
theorem parseParameter_digit_prefix (env : Environment) (digits rest : List Char)
    (hne : digits ≠ []) (hd : ∀ d ∈ digits, d.isDigit = true)
    (hrest : ∀ x ∈ rest.head?, x.isDigit = false) (hdot : '.' ∉ rest)
    (hfit : Literal.number digits ≤ 2147483647) :
    parseParameter env (digits ++ rest) = some (Any.integer (Literal.number digits)) := by
  have htrim := trim_append digits rest hne
    (fun x hx => isspace_of_isDigit x (hd x (List.mem_of_mem_head? hx)))
    (fun x hx => isspace_of_isDigit x (hd x (List.mem_of_mem_getLast? hx)))
  obtain ⟨hhead, hmem⟩ := rtrim_head rest
  have hread := IStream.readInt_prefix digits ((rest.reverse.dropWhile isspace).reverse) hne hd
    (fun x hx => hrest x (hhead x hx)) hfit
  obtain ⟨d, ds, rfl⟩ := List.exists_cons_of_ne_nil hne
  have hdig : d.isDigit = true := hd d (List.mem_cons_self _ _)
  have hnodot : (d :: ds ++ (rest.reverse.dropWhile isspace).reverse).contains '.' = false := by
    rw [Bool.eq_false_iff]
    intro hc
    have hin : '.' ∈ d :: ds ++ (rest.reverse.dropWhile isspace).reverse := by simpa using hc
    rcases List.mem_append.1 hin with h | h
    · have := hd '.' h
      revert this
      decide
    · exact hdot (hmem '.' h)
  have hpeek : IStream.peek { buf := d :: ds ++ (rest.reverse.dropWhile isspace).reverse } =
      (some d, { buf := d :: ds ++ (rest.reverse.dropWhile isspace).reverse }) := rfl
  unfold parseParameter
  simp only [htrim, hpeek, Option.any_some, hdig, if_true, hnodot, Bool.not_false]
  rcases hr : IStream.readInt { buf := d :: ds ++ (rest.reverse.dropWhile isspace).reverse }
    with ⟨i, s1⟩
  rw [hr] at hread
  simp only at hread
  rw [hread]

/-- A quoted string followed by anything but whitespace is rejected. -/
theorem parseParameter_after_quote (env : Environment) (body extra : List Char)
    (hq : '"' ∉ body) (hextra : ∃ x ∈ extra, isspace x = false) :
    parseParameter env ('"' :: body ++ '"' :: extra) = none := by
  have hcat : '"' :: body ++ '"' :: extra = ('"' :: body ++ ['"']) ++ extra := by simp
  have htrim := trim_append ('"' :: body ++ ['"']) extra (by simp)
    (fun x hx => by
      simp only [List.cons_append, List.head?_cons, Option.mem_def, Option.some.injEq] at hx
      rw [← hx]
      decide)
    (fun x hx => by
      rw [List.getLast?_concat] at hx
      simp only [Option.mem_def, Option.some.injEq] at hx
      rw [← hx]
      decide)
  obtain ⟨y, ys, hy⟩ := List.exists_cons_of_ne_nil (rtrim_ne_nil extra hextra)
  rw [hy] at htrim
  have hpeek : IStream.peek { buf := ('"' :: body ++ ['"']) ++ y :: ys } =
      (some '"', { buf := ('"' :: body ++ ['"']) ++ y :: ys }) := rfl
  have hchar : IStream.readChar { buf := ('"' :: body ++ ['"']) ++ y :: ys } =
      (some '"', { buf := body ++ '"' :: y :: ys }) := by
    have : ('"' :: body ++ ['"']) ++ y :: ys = '"' :: (body ++ '"' :: y :: ys) := by simp
    rw [this]
    rfl
  have hspan : (body ++ '"' :: y :: ys).span (fun c => c != '"') = (body, '"' :: y :: ys) :=
    span_append_cons _ body '"' (y :: ys)
      (fun z hz => by
        simp only [bne_iff_ne, ne_eq]
        rintro rfl
        exact hq hz)
      (by simp)
  have hline : IStream.getline { buf := body ++ '"' :: y :: ys } '"' =
      (some body, { buf := y :: ys }) := by
    unfold IStream.getline
    simp only [IStream.good, Bool.not_false, Bool.and_self, Bool.not_true, Bool.false_eq_true,
      if_false, hspan]
  have hend : IStream.peek { buf := y :: ys } = (some y, { buf := y :: ys }) := rfl
  unfold parseParameter
  rw [hcat]
  simp only [htrim, hpeek, hchar, hline, hend]
  simp

/-- When the body of the loop rejects the token just read, the loop ends with the empty
command, whatever was read before and whatever follows. -/
theorem parseParameters_rejected (env : Environment) (bound : Nat) (ss ss1 : IStream)
    (cmd : GenericCommand) (token : List Char) (hline : ss.getline ',' = (some token, ss1))
    (hreject : parseParameter env token = none) :
    parseParameters env (bound + 1) ss cmd = some {} := by
  rw [parseParameters, hline]
  simp only [hreject]

end ServerConsole

section NumberAndStringTokens

open ServerConsole

/-- C21 (counterexample): in the line `add "a" ,1` the quoted string is followed by a blank
after its closing quote; the blank is trimmed off the token and the line is parsed into the
command `add` with the parameters `a` and 1, not into the empty command. -/
theorem quoted_string_then_blank_is_accepted :
    parseParameter ServerConsole.Example.env ['"', 'a', '"', ' '] = some (Any.string "a") ∧
    parseCommandParameters ServerConsole.Example.env "add \"a\" ,1" =
      some { conName := "", cmd := "add", params := [Any.string "a", Any.integer 1] } ∧
    parseCommandParameters ServerConsole.Example.env "add \"a\" ,1" ≠ some {} :=
  ⟨by decide, by decide, by decide⟩

/-- C21 (amended): a parameter token that starts with a digit and holds no `.` is accepted on
its longest run of leading digits alone: when the run fits in `int` the parameter is that
integer, whatever follows the run, and the loop goes on with the next token (the token `12abc`
gives 12). A quoted-string token with characters after its closing quote that are not all
whitespace makes the loop, and with it the whole parse, return the empty command. -/
theorem digit_prefix_accepted_quote_checked (env : Environment) (digits rest : List Char)
    (hne : digits ≠ []) (hd : ∀ d ∈ digits, d.isDigit = true)
    (hrest : ∀ x ∈ rest.head?, x.isDigit = false) (hdot : '.' ∉ rest)
    (hfit : Literal.number digits ≤ 2147483647)
    (body extra : List Char) (hq : '"' ∉ body) (hextra : ∃ x ∈ extra, isspace x = false)
    (c : Option String) (w : String) (hw : w.data ≠ [])
    (hws : ∀ ch ∈ w.data, isspace ch = false ∧ ch ≠ '.')
    (hc : ∀ cn, c = some cn → ∀ ch ∈ cn.data, isspace ch = false ∧ ch ≠ '.')
    (str : String) (params : List Char) (ss1 : IStream)
    (hstr : trim str.data = firstToken c w ++ ' ' :: params)
    (hline : IStream.getline { buf := params } ',' = (some ('"' :: body ++ '"' :: extra), ss1)) :
    parseParameter env (digits ++ rest) = some (Any.integer (Literal.number digits)) ∧
    (∀ (bound : Nat) (ss ss2 : IStream) (cmd : GenericCommand),
      ss.getline ',' = (some (digits ++ rest), ss2) →
        parseParameters env (bound + 1) ss cmd =
          parseParameters env bound ss2
            { cmd with params := cmd.params ++ [Any.integer (Literal.number digits)] }) ∧
    parseCommandParameters env "add 12abc" =
      some { conName := "", cmd := "add", params := [Any.integer 12] } ∧
    parseParameter env ('"' :: body ++ '"' :: extra) = none ∧
    (∀ (bound : Nat) (ss ss2 : IStream) (cmd : GenericCommand),
      ss.getline ',' = (some ('"' :: body ++ '"' :: extra), ss2) →
        parseParameters env (bound + 1) ss cmd = some {}) ∧
    parseCommandParameters env str = some {} := by
  have hint := parseParameter_digit_prefix env digits rest hne hd hrest hdot hfit
  have hbad := parseParameter_after_quote env body extra hq hextra
  refine ⟨hint, ?_, rfl, hbad, ?_, ?_⟩
  · intro bound ss ss2 cmd hl
    rw [parseParameters, hl]
    simp only [hint]
  · intro bound ss ss2 cmd hl
    exact parseParameters_rejected env bound ss ss2 cmd _ hl hbad
  · have hnosp : ∀ ch ∈ firstToken c w, (ch != ' ') = true := by
      intro ch hch
      simp only [bne_iff_ne, ne_eq]
      rintro rfl
      have hsp : isspace ' ' = false := by
        cases c with
        | none => exact (hws ' ' hch).1
        | some cn =>
          simp only [firstToken, List.mem_append, List.mem_cons] at hch
          rcases hch with h | h | h
          · exact (hc cn rfl ' ' h).1
          · exact absurd h (by decide)
          · exact (hws ' ' h).1
      revert hsp
      decide
    have hget : IStream.getline { buf := firstToken c w ++ ' ' :: params } ' ' =
        (some (firstToken c w), { buf := params }) := by
      unfold IStream.getline
      simp only [IStream.good, Bool.not_false, Bool.and_self, Bool.not_true,
        Bool.false_eq_true, if_false,
        span_append_cons _ (firstToken c w) ' ' params hnosp (by simp)]
    unfold parseCommandParameters
    simp only [hstr, hget]
    exact parse_name env c w hw hws hc { buf := params } (firstToken c w) rfl _
      (parseParameters_rejected env _ _ ss1 _ _ hline hbad)

/-- Witness of C21 (amended): the token `12abc`, and the line `add "a"b,2`. -/
theorem digit_prefix_accepted_quote_checked_witness :
    parseParameter ServerConsole.Example.env (['1', '2'] ++ ['a', 'b', 'c']) =
      some (Any.integer (Literal.number ['1', '2'])) ∧
    (∀ (bound : Nat) (ss ss2 : IStream) (cmd : GenericCommand),
      ss.getline ',' = (some (['1', '2'] ++ ['a', 'b', 'c']), ss2) →
        parseParameters ServerConsole.Example.env (bound + 1) ss cmd =
          parseParameters ServerConsole.Example.env bound ss2
            { cmd with params := cmd.params ++ [Any.integer (Literal.number ['1', '2'])] }) ∧
    parseCommandParameters ServerConsole.Example.env "add 12abc" =
      some { conName := "", cmd := "add", params := [Any.integer 12] } ∧
    parseParameter ServerConsole.Example.env ('"' :: ['a'] ++ '"' :: ['b']) = none ∧
    (∀ (bound : Nat) (ss ss2 : IStream) (cmd : GenericCommand),
      ss.getline ',' = (some ('"' :: ['a'] ++ '"' :: ['b']), ss2) →
        parseParameters ServerConsole.Example.env (bound + 1) ss cmd = some {}) ∧
    parseCommandParameters ServerConsole.Example.env "add \"a\"b,2" = some {} :=
  digit_prefix_accepted_quote_checked ServerConsole.Example.env ['1', '2'] ['a', 'b', 'c']
    (by decide) (by decide) (by decide) (by decide) (by decide)
    ['a'] ['b'] (by decide) ⟨'b', by decide, by decide⟩
    none "add" (by decide) (by decide) (fun cn h => by cases h)
    "add \"a\"b,2" ['"', 'a', '"', 'b', ',', '2'] { buf := ['2'] } (by decide) (by decide)

end NumberAndStringTokens

end cz.rpc
